import Mathlib

set_option maxRecDepth 2048

/-!
Verification development for an in-memory document search engine
(`SearchServer`), its request-rate tracker (`RequestQueue`) and its
pagination helper (`Paginator`).

Modelling conventions:
- C++ `std::string` text is modelled as Lean `String`; tokens are `String`s.
- C++ `double` arithmetic is modelled exactly over `ℚ`; the transcendental
  `std::log` is kept abstract as a parameter `rlog : ℚ → ℚ`, so every
  statement about relevance holds for the actual logarithm in particular.
- C++ `std::map` / `std::set` are modelled as association lists / lists kept
  in strictly increasing key order (the representation a red-black-tree map
  denotes); `std::map::operator[]`, `emplace`, `erase`, `at` and `count` are
  translated below.  `std::map::at` on an absent key throws
  `std::out_of_range`; this is the `SSError.mapAtOutOfRange` outcome.
- Fallible code returns `Except SSError`.  `SearchServer::AddDocument`, which
  mutates in place, additionally has a `addDocumentRun` form returning the
  state as it stands when an exception escapes, so that claims about
  exception safety are about the real mutation order.
- C++ `int` division truncates toward zero, hence `Int.tdiv` below.
-/

/-- The four document states of the C++ `enum class DocumentStatus`. -/
inductive DocumentStatus where
  | ACTUAL
  | IRRELEVANT
  | BANNED
  | REMOVED
deriving DecidableEq, Repr

/-- The distinct error conditions raised by the engine.  The first eight are
`std::invalid_argument` throws in the C++ code (each constructor corresponds
to one distinct message string); the last two are `std::out_of_range`:
`documentIdOutOfRange` is the explicit throw in `GetDocumentId`, and
`mapAtOutOfRange` is the implicit throw of `std::map::at` on an absent key. -/
inductive SSError where
  | invalidStopWords
  | negativeDocumentId
  | duplicateDocumentId
  | invalidCharsInDocument
  | invalidCharsInQuery
  | doubleMinus
  | bareMinus
  | emptySearchRequest
  | documentIdOutOfRange
  | mapAtOutOfRange
deriving DecidableEq, Repr

/-- The C++ `struct Document` (id, relevance, rating). -/
structure Document where
  id : Int
  relevance : ℚ
  rating : Int
deriving DecidableEq, Repr

/-- The C++ `SearchServer::DocumentData` (rating, status). -/
structure DocumentData where
  rating : Int
  status : DocumentStatus
deriving DecidableEq, Repr

/-- `MAX_RESULT_DOCUMENT_COUNT` from the source. -/
def MAX_RESULT_DOCUMENT_COUNT : Nat := 5

/-- `EPSILON` from the source (`1e-6`), as an exact rational. -/
def EPSILON : ℚ := 1 / 1000000

/-- Plain association-list lookup; the denotation of `std::map` lookup
(`count`, `find`, `at`) on the list representation of the map. -/
def alookup {K V : Type} [DecidableEq K] (k : K) : List (K × V) → Option V
  | [] => none
  | (k', v') :: rest => if k = k' then some v' else alookup k rest

/-- `std::map<int,ℚ>::operator[](k) += v`: add `v` at key `k`, inserting the
key (with prior value `0`) at its sorted position when absent. -/
def updAddQ (k : Int) (v : ℚ) : List (Int × ℚ) → List (Int × ℚ)
  | [] => [(k, v)]
  | (k', v') :: rest =>
    if k < k' then (k, v) :: (k', v') :: rest
    else if k = k' then (k', v' + v) :: rest
    else (k', v') :: updAddQ k v rest

/-- `std::map<int,ℚ>::erase(k)`: remove the entry with key `k`, if any. -/
def aeraseQ (k : Int) : List (Int × ℚ) → List (Int × ℚ)
  | [] => []
  | (k', v') :: rest => if k = k' then rest else (k', v') :: aeraseQ k rest

/-- `std::map<int,DocumentData>::emplace(k, v)`: insert at the sorted
position when the key is absent; keep the old entry when present. -/
def aemplaceD (k : Int) (v : DocumentData) :
    List (Int × DocumentData) → List (Int × DocumentData)
  | [] => [(k, v)]
  | (k', v') :: rest =>
    if k < k' then (k, v) :: (k', v') :: rest
    else if k = k' then (k', v') :: rest
    else (k', v') :: aemplaceD k v rest

/-- The inverted index `word_to_document_freqs_`:
`std::map<std::string, std::map<int, double>>`. -/
def WordIndex : Type := List (String × List (Int × ℚ))

/-- Lexicographic order on character lists: the `std::string` `operator<`
used as the `std::map` / `std::set` key comparison. -/
def charListLt : List Char → List Char → Bool
  | [], [] => false
  | [], _ :: _ => true
  | _ :: _, [] => false
  | c :: cs, d :: ds =>
    if c < d then true
    else if d < c then false
    else charListLt cs ds

/-- `std::string` comparison on the `String` model. -/
def strLt (s t : String) : Bool :=
  charListLt s.data t.data

/-- `word_to_document_freqs_[word]` followed by applying `f` to the inner
map: `operator[]` default-constructs an empty inner map for an absent key. -/
def updIndex (w : String) (f : List (Int × ℚ) → List (Int × ℚ)) :
    WordIndex → WordIndex
  | [] => [(w, f [])]
  | (w', m) :: rest =>
    if strLt w w' then (w, f []) :: (w', m) :: rest
    else if w = w' then (w', f m) :: rest
    else (w', m) :: updIndex w f rest

/-- `word_to_document_freqs_[word][document_id] += inv` from `AddDocument`. -/
def bumpPosting (w : String) (id : Int) (v : ℚ) (idx : WordIndex) : WordIndex :=
  updIndex w (updAddQ id v) idx

/-- `std::set<std::string>::insert`. -/
def sinsert (w : String) : List String → List String
  | [] => [w]
  | w' :: rest =>
    if strLt w w' then w :: w' :: rest
    else if w = w' then w' :: rest
    else w' :: sinsert w rest

/-- `std::map::at` on the list representation: ok on a present key, the
`std::out_of_range` outcome on an absent one. -/
def mapAt {K V : Type} [DecidableEq K] (m : List (K × V)) (k : K) :
    Except SSError V :=
  match alookup k m with
  | some v => .ok v
  | none => .error .mapAtOutOfRange

/-- Engine state: the four private fields of the C++ `SearchServer`. -/
structure SearchServer where
  stop_words : List String
  word_to_document_freqs : List (String × List (Int × ℚ))
  documents : List (Int × DocumentData)
  document_id_sequence : List Int
deriving DecidableEq, Repr

/-- Worker loop of `SplitIntoWords`: the current word is accumulated in
reverse; a space flushes a nonempty current word. -/
def splitIntoWordsGo : List Char → List Char → List String
  | cur, [] => if cur = [] then [] else [String.mk cur.reverse]
  | cur, c :: cs =>
    if c = ' ' then
      if cur = [] then splitIntoWordsGo [] cs
      else String.mk cur.reverse :: splitIntoWordsGo [] cs
    else splitIntoWordsGo (c :: cur) cs

/-- `SplitIntoWords`: split on the space character only; no empty tokens. -/
def splitIntoWords (text : String) : List String :=
  splitIntoWordsGo [] text.data

/-- `SearchServer::IsValidWord`: no character with code in `[0, 31]`. -/
def isValidWord (word : String) : Bool :=
  word.data.all (fun c => !(c.toNat < 32))

/-- `SearchServer::IsStopWord`: `stop_words_.count(word) > 0`. -/
def isStopWord (sw : List String) (word : String) : Bool :=
  sw.contains word

/-- `MakeUniqueNonEmptyStrings`. -/
def makeUniqueNonEmptyStrings (strs : List String) : List String :=
  strs.foldl (fun acc str => if str = "" then acc else sinsert str acc) []

/-- Loop of the stop-word constructor: insert each valid word, fail on the
first invalid one. -/
def mkStopLoop (acc : List String) : List String → Except SSError (List String)
  | [] => .ok acc
  | w :: ws =>
    if isValidWord w then mkStopLoop (sinsert w acc) ws
    else .error .invalidStopWords

/-- The `SearchServer` constructor from a container of stop words. -/
def mkSearchServer (stop_words : List String) : Except SSError SearchServer :=
  match mkStopLoop [] (makeUniqueNonEmptyStrings stop_words) with
  | .error e => .error e
  | .ok sw => .ok ⟨sw, [], [], []⟩

/-- Loop of `SplitIntoWordsNoStop`: keep valid non-stop words in order, fail
on the first invalid word. -/
def splitNoStopLoop (sw : List String) : List String → Except SSError (List String)
  | [] => .ok []
  | w :: ws =>
    if isValidWord w then
      if isStopWord sw w then splitNoStopLoop sw ws
      else
        match splitNoStopLoop sw ws with
        | .error e => .error e
        | .ok rest => .ok (w :: rest)
    else .error .invalidCharsInDocument

/-- `SearchServer::SplitIntoWordsNoStop`. -/
def splitIntoWordsNoStop (sw : List String) (text : String) :
    Except SSError (List String) :=
  splitNoStopLoop sw (splitIntoWords text)

/-- `SearchServer::ComputeAverageRating`: integer division of the sum by the
count (C++ `int` division truncates toward zero), `0` for no ratings. -/
def computeAverageRating (ratings : List Int) : Int :=
  if ratings = [] then 0
  else Int.tdiv (ratings.foldl (fun acc r => acc + r) 0) (ratings.length : Int)

/-- The posting loop of `AddDocument`:
`for word in words: word_to_document_freqs_[word][document_id] += inv`. -/
def addPostings (id : Int) (inv : ℚ) : List String → WordIndex → WordIndex
  | [], idx => idx
  | w :: ws, idx => addPostings id inv ws (bumpPosting w id inv idx)

/-- `SearchServer::AddDocument` in execution order, returning the state as it
stands together with the escaping exception, if any.  All three throws
(negative id, duplicate id, invalid word) happen before the first mutation.
`1.0 / words.size()` on zero words is the C++ infinity; it is never stored
because the posting loop body does not run, so the `ℚ` convention `1/0 = 0`
is unobservable. -/
def addDocumentRun (s : SearchServer) (document_id : Int) (document : String)
    (status : DocumentStatus) (ratings : List Int) :
    SearchServer × Option SSError :=
  if document_id < 0 then (s, some .negativeDocumentId)
  else if (alookup document_id s.documents).isSome then
    (s, some .duplicateDocumentId)
  else
    match splitIntoWordsNoStop s.stop_words document with
    | .error e => (s, some e)
    | .ok words =>
      let inv_word_count : ℚ := 1 / (words.length : ℚ)
      ({ s with
          word_to_document_freqs :=
            addPostings document_id inv_word_count words s.word_to_document_freqs,
          documents :=
            aemplaceD document_id ⟨computeAverageRating ratings, status⟩ s.documents,
          document_id_sequence := s.document_id_sequence ++ [document_id] },
        none)

/-- `SearchServer::AddDocument` as a fallible state transformer. -/
def addDocument (s : SearchServer) (document_id : Int) (document : String)
    (status : DocumentStatus) (ratings : List Int) :
    Except SSError SearchServer :=
  match addDocumentRun s document_id document status ratings with
  | (_, some e) => .error e
  | (s', none) => .ok s'

/-- `SearchServer::GetDocumentCount`. -/
def getDocumentCount (s : SearchServer) : Int :=
  (s.documents.length : Int)

/-- `SearchServer::GetDocumentId`: bounds-checked positional lookup in
`document_id_sequence_`. -/
def getDocumentId (s : SearchServer) (index : Int) : Except SSError Int :=
  if 0 ≤ index ∧ index < getDocumentCount s then
    .ok (s.document_id_sequence.getD index.toNat 0)
  else .error .documentIdOutOfRange

/-- The C++ `SearchServer::QueryWord`. -/
structure QueryWord where
  data : String
  is_minus : Bool
  is_stop : Bool
deriving DecidableEq, Repr

/-- The C++ `SearchServer::Query`: plus and minus word sets. -/
structure Query where
  plus_words : List String
  minus_words : List String
deriving DecidableEq, Repr

/-- `text[0]` on a `std::string`: the null character when the string is
empty (reading `s[s.size()]` is defined and yields `CharT()`). -/
def strIndex0 (s : String) : Char :=
  s.data.headD (Char.ofNat 0)

/-- `SearchServer::ParseQueryWord`: validity check first; then strip one
leading minus; a second leading minus is the double-minus error, an empty
remainder the bare-dash error. -/
def parseQueryWord (sw : List String) (text : String) :
    Except SSError QueryWord :=
  if isValidWord text then
    if strIndex0 text = '-' then
      let text2 := String.mk text.data.tail
      if strIndex0 text2 = '-' then .error .doubleMinus
      else if text2 = "" then .error .bareMinus
      else .ok ⟨text2, true, isStopWord sw text2⟩
    else .ok ⟨text, false, isStopWord sw text⟩
  else .error .invalidCharsInQuery

/-- Loop of `ParseQuery`: accumulate non-stop words into the plus or minus
set, propagating the first token error. -/
def parseQueryLoop (sw : List String) (q : Query) :
    List String → Except SSError Query
  | [] => .ok q
  | w :: ws =>
    match parseQueryWord sw w with
    | .error e => .error e
    | .ok qw =>
      if qw.is_stop then parseQueryLoop sw q ws
      else if qw.is_minus then
        parseQueryLoop sw { q with minus_words := sinsert qw.data q.minus_words } ws
      else
        parseQueryLoop sw { q with plus_words := sinsert qw.data q.plus_words } ws

/-- `SearchServer::ParseQuery`. -/
def parseQuery (sw : List String) (text : String) : Except SSError Query :=
  parseQueryLoop sw ⟨[], []⟩ (splitIntoWords text)

/-- `SearchServer::ComputeWordInverseDocumentFreq`:
`log(GetDocumentCount() * 1.0 / word_to_document_freqs_.at(word).size())`,
with `std::log` abstracted as `rlog` (the `* 1.0` is the int-to-double
conversion). -/
def computeWordInverseDocumentFreq (s : SearchServer) (rlog : ℚ → ℚ)
    (word : String) : Except SSError ℚ :=
  match mapAt s.word_to_document_freqs word with
  | .error e => .error e
  | .ok postings =>
    .ok (rlog ((s.documents.length : ℚ) / (postings.length : ℚ)))

/-- One plus word's posting loop in `FindAllDocuments`: for each posting,
look the document up (`documents_.at`, which can throw) and, when the
predicate accepts it, accumulate `term_freq * inverse_document_freq`. -/
def accumPostings (docs : List (Int × DocumentData))
    (pred : Int → DocumentStatus → Int → Bool) (idfv : ℚ) :
    List (Int × ℚ) → List (Int × ℚ) → Except SSError (List (Int × ℚ))
  | [], m => .ok m
  | (id, tf) :: rest, m =>
    match mapAt docs id with
    | .error e => .error e
    | .ok dd =>
      if pred id dd.status dd.rating then
        accumPostings docs pred idfv rest (updAddQ id (tf * idfv) m)
      else accumPostings docs pred idfv rest m

/-- The plus-word loop of `FindAllDocuments`: words absent from the index are
skipped (`count == 0`); otherwise the word's IDF is computed and its postings
accumulated. -/
def findAllWordsLoop (s : SearchServer) (rlog : ℚ → ℚ)
    (pred : Int → DocumentStatus → Int → Bool) :
    List String → List (Int × ℚ) → Except SSError (List (Int × ℚ))
  | [], m => .ok m
  | w :: ws, m =>
    match alookup w s.word_to_document_freqs with
    | none => findAllWordsLoop s rlog pred ws m
    | some postings =>
      match computeWordInverseDocumentFreq s rlog w with
      | .error e => .error e
      | .ok idfv =>
        match accumPostings s.documents pred idfv postings m with
        | .error e => .error e
        | .ok m' => findAllWordsLoop s rlog pred ws m'

/-- Inner loop of the minus-word pass: erase every document of a minus
word's posting map from the accumulator. -/
def erasePostings : List (Int × ℚ) → List (Int × ℚ) → List (Int × ℚ)
  | [], m => m
  | (id, _) :: rest, m => erasePostings rest (aeraseQ id m)

/-- The minus-word loop of `FindAllDocuments`. -/
def eraseMinus (s : SearchServer) :
    List String → List (Int × ℚ) → List (Int × ℚ)
  | [], m => m
  | w :: ws, m =>
    match alookup w s.word_to_document_freqs with
    | none => eraseMinus s ws m
    | some postings => eraseMinus s ws (erasePostings postings m)

/-- The final loop of `FindAllDocuments`: turn the accumulator into
`Document` records, reading each rating through `documents_.at`. -/
def buildMatched (docs : List (Int × DocumentData)) :
    List (Int × ℚ) → Except SSError (List Document)
  | [] => .ok []
  | (id, rel) :: rest =>
    match mapAt docs id with
    | .error e => .error e
    | .ok dd =>
      match buildMatched docs rest with
      | .error e => .error e
      | .ok tail => .ok (⟨id, rel, dd.rating⟩ :: tail)

/-- `SearchServer::FindAllDocuments`. -/
def findAllDocuments (s : SearchServer) (rlog : ℚ → ℚ) (query : Query)
    (pred : Int → DocumentStatus → Int → Bool) :
    Except SSError (List Document) :=
  match findAllWordsLoop s rlog pred query.plus_words [] with
  | .error e => .error e
  | .ok m =>
    buildMatched s.documents (eraseMinus s query.minus_words m)

/-- The sort comparator of `FindTopDocuments`: within `EPSILON` of relevance,
compare ratings descending; otherwise relevance descending. -/
def docLt (lhs rhs : Document) : Bool :=
  if |lhs.relevance - rhs.relevance| < EPSILON then
    decide (rhs.rating < lhs.rating)
  else decide (rhs.relevance < lhs.relevance)

/-- `SearchServer::FindTopDocuments` (predicate overload): parse, reject an
empty raw query, collect all matching documents, sort with `docLt`
(`std::sort` modelled as insertion sort with the induced weak order), and
truncate to `MAX_RESULT_DOCUMENT_COUNT`. -/
def findTopDocuments (s : SearchServer) (rlog : ℚ → ℚ) (raw_query : String)
    (pred : Int → DocumentStatus → Int → Bool) :
    Except SSError (List Document) :=
  match parseQuery s.stop_words raw_query with
  | .error e => .error e
  | .ok query =>
    if raw_query = "" then .error .emptySearchRequest
    else
      match findAllDocuments s rlog query pred with
      | .error e => .error e
      | .ok matched =>
        let sorted := List.insertionSort (fun a b => docLt b a = false) matched
        .ok (if MAX_RESULT_DOCUMENT_COUNT < sorted.length then
               sorted.take MAX_RESULT_DOCUMENT_COUNT
             else sorted)

/-- The plus-word loop of `MatchDocument`: collect, in order, the plus words
present in the index that have a posting for the document. -/
def matchPlusLoop (idx : List (String × List (Int × ℚ))) (id : Int) :
    List String → List String
  | [] => []
  | w :: ws =>
    match alookup w idx with
    | none => matchPlusLoop idx id ws
    | some postings =>
      if (alookup id postings).isSome then w :: matchPlusLoop idx id ws
      else matchPlusLoop idx id ws

/-- The minus-word loop of `MatchDocument`: does any minus word present in
the index have a posting for the document?  (If so the C++ loop clears the
matched words and breaks.) -/
def minusHit (idx : List (String × List (Int × ℚ))) (id : Int) :
    List String → Bool
  | [] => false
  | w :: ws =>
    match alookup w idx with
    | none => minusHit idx id ws
    | some postings =>
      if (alookup id postings).isSome then true else minusHit idx id ws

/-- `SearchServer::MatchDocument`: negative-id check, parse, empty-query
check, the two matching loops, then the status read through
`documents_.at(document_id)` (which throws `std::out_of_range` when the id
is not stored). -/
def matchDocument (s : SearchServer) (raw_query : String) (document_id : Int) :
    Except SSError (List String × DocumentStatus) :=
  if document_id < 0 then .error .negativeDocumentId
  else
    match parseQuery s.stop_words raw_query with
    | .error e => .error e
    | .ok query =>
      if raw_query = "" then .error .emptySearchRequest
      else
        let matched := matchPlusLoop s.word_to_document_freqs document_id
          query.plus_words
        let matched2 :=
          if minusHit s.word_to_document_freqs document_id query.minus_words
          then [] else matched
        match mapAt s.documents document_id with
        | .error e => .error e
        | .ok dd => .ok (matched2, dd.status)

/-- One sliding-window record of the request tracker
(`RequestQueue::QueryResult`). -/
structure QueryResult where
  request_time : Nat
  number_of_request_results : Nat
  number_of_no_results : Int
deriving DecidableEq, Repr

/-- The request tracker state: the deque of records (front first) and the
monotone request counter. -/
structure RequestQueue where
  requests : List QueryResult
  current_request_id : Nat
deriving DecidableEq, Repr

/-- `RequestQueue::min_in_day_`: the window capacity. -/
def min_in_day : Nat := 1440

/-- The `RequestQueue` constructor state. -/
def RequestQueue.init : RequestQueue := ⟨[], 0⟩

/-- The recording step of `RequestQueue::AddFindRequest`, as a function of
the size of the result set: bump the counter; on an empty deque push the
first record; at capacity push the new record (adjusting the running
zero-result count by the evicted front) and pop the front; otherwise just
push. -/
def recordRequest (rq : RequestQueue) (quantity : Nat) : RequestQueue :=
  let current := rq.current_request_id + 1
  let is_zero : Int := if quantity = 0 then 1 else 0
  match rq.requests with
  | [] => { requests := [⟨current, quantity, is_zero⟩], current_request_id := current }
  | front :: others =>
    let prev := (List.getLastD (front :: others) front).number_of_no_results
    if (front :: others).length = min_in_day then
      { requests := others ++
          [⟨current, quantity,
            prev + is_zero - (if front.number_of_request_results = 0 then 1 else 0)⟩],
        current_request_id := current }
    else
      { requests := (front :: others) ++ [⟨current, quantity, prev + is_zero⟩],
        current_request_id := current }

/-- `RequestQueue::AddFindRequest` (predicate overload): delegate to the
engine, propagate any error unchanged, otherwise record the result size and
return the results. -/
def addFindRequest (s : SearchServer) (rlog : ℚ → ℚ) (rq : RequestQueue)
    (raw_query : String) (pred : Int → DocumentStatus → Int → Bool) :
    Except SSError (RequestQueue × List Document) :=
  match findTopDocuments s rlog raw_query pred with
  | .error e => .error e
  | .ok search_results => .ok (recordRequest rq search_results.length, search_results)

/-- Modelled from the spec: the body of `RequestQueue::GetNoResultRequests`
is not among the sources (only its declaration is).  Per the spec it returns
the current running zero-result count in O(1); in this representation that
running count is the `number_of_no_results` field of the newest window
record, and `0` for an empty window. -/
def getNoResultRequests (rq : RequestQueue) : Int :=
  match rq.requests.getLast? with
  | none => 0
  | some r => r.number_of_no_results

/-- Fold a sequence of tracked result sizes through the recording step. -/
def runQueue (rq : RequestQueue) (qs : List Nat) : RequestQueue :=
  qs.foldl recordRequest rq

/-- Request sequence numbers paired with result sizes, starting at `i`. -/
def indexedFrom (i : Nat) : List Nat → List (Nat × Nat)
  | [] => []
  | q :: qs => (i, q) :: indexedFrom (i + 1) qs

/-- Request sequence numbers (from 1) paired with result sizes. -/
def indexed (qs : List Nat) : List (Nat × Nat) :=
  indexedFrom 1 qs

/-- The number of zero-result entries in a list of result sizes. -/
def countZeros (l : List Nat) : Nat :=
  l.countP (fun q => q == 0)

/-- The most recent `min_in_day` entries of a request history. -/
def windowOf (ps : List Nat) : List Nat :=
  ps.drop (ps.length - min_in_day)

/-- The invariant tying a tracker state to the full history `ps` of tracked
result sizes: the counter equals the number of requests; the retained
records are exactly the most recent `min_in_day` requests, in order, with
their sequence numbers; the window is empty only for an empty history; and
the newest record carries the running count of zero-result requests in the
window. -/
def QueueInv (rq : RequestQueue) (ps : List Nat) : Prop :=
  rq.current_request_id = ps.length ∧
  rq.requests.map (fun r => (r.request_time, r.number_of_request_results))
    = (indexed ps).drop (ps.length - min_in_day) ∧
  (rq.requests = [] → ps = []) ∧
  (∀ back, rq.requests.getLast? = some back →
     back.number_of_no_results = (countZeros (windowOf ps) : Int))

/-- A page of the paginator: a contiguous index range `[page_begin,
page_end)` into the underlying sequence (the list model of the iterator pair
held by the C++ `IteratorRange`). -/
structure IteratorRange where
  page_begin : Nat
  page_end : Nat
deriving DecidableEq, Repr

/-- The elements a page denotes: the slice of the container between the
page's begin and end. -/
def IteratorRange.elems {α : Type} (c : List α) (r : IteratorRange) : List α :=
  (c.take r.page_end).drop r.page_begin

/-- Modelled from the spec: the C++ `IteratorRange::size` reads
`return destination(page_begin_, page_end_);` with return type `Iterator` —
`destination` does not exist (a misspelling of `std::distance`) and an
iterator is not a count, so the member does not compile when instantiated.
The spec prescribes "count of elements in this page", which for an index
range is `page_end - page_begin`. -/
def IteratorRange.sizeSpec (r : IteratorRange) : Nat :=
  r.page_end - r.page_begin

/-- The failure mode of the paginator model: the C++ constructor divides by
`page_size` with no check, so a zero page size is a division by zero
(undefined behavior), modelled as this error. -/
inductive PaginatorError where
  | divisionByZero
deriving DecidableEq, Repr

/-- The page-building loop of the `Paginator` constructor, by the number of
pages still to build: every page but the last is `[b, b + page_size)`, the
last is `[b, range_end)`. -/
def buildPages (page_size range_end : Nat) : Nat → Nat → List IteratorRange
  | 0, _ => []
  | 1, b => [⟨b, range_end⟩]
  | k + 2, b => ⟨b, b + page_size⟩ :: buildPages page_size range_end (k + 1) (b + page_size)

/-- `Paginate` / the `Paginator` constructor over a sequence: compute
`pages_count = range_size / page_size`, rounded up when the division has a
remainder, and build the pages.  The C++ code performs
`range_size_ % page_size` with no guard, so `page_size = 0` is the
division-by-zero failure. -/
def paginate {α : Type} (c : List α) (page_size : Nat) :
    Except PaginatorError (List IteratorRange) :=
  if page_size = 0 then .error .divisionByZero
  else
    let range_size := c.length
    let pages_count :=
      if range_size % page_size > 0 then range_size / page_size + 1
      else range_size / page_size
    .ok (buildPages page_size range_size pages_count 0)

/-- Whether the predicate accepts a stored document: the status and rating
are those `documents_.at(id)` yields; an unstored id is never accepted (the
code would have thrown before consulting the predicate). -/
def predAt (docs : List (Int × DocumentData))
    (pred : Int → DocumentStatus → Int → Bool) (id : Int) : Bool :=
  match alookup id docs with
  | none => false
  | some dd => pred id dd.status dd.rating

/-- Whether word `w` is present in an inverted index with a posting for
document `id` (the lookup pattern both `MatchDocument` loops use). -/
def postingHasId (idx : List (String × List (Int × ℚ))) (id : Int)
    (w : String) : Bool :=
  match alookup w idx with
  | none => false
  | some postings => (alookup id postings).isSome

/-- Whether word `w` is present in the engine's inverted index with a
posting for document `id`. -/
def hasPostingB (s : SearchServer) (w : String) (id : Int) : Bool :=
  postingHasId s.word_to_document_freqs id w

/-- The TF-IDF contribution of one query term to one document: term
frequency in the document times `rlog` of (document count / number of
documents containing the term); `0` when the term is absent from the index
or has no posting for the document. -/
def contribution (s : SearchServer) (rlog : ℚ → ℚ) (id : Int) (w : String) : ℚ :=
  match alookup w s.word_to_document_freqs with
  | none => 0
  | some postings =>
    match alookup id postings with
    | none => 0
    | some tf => tf * rlog ((s.documents.length : ℚ) / (postings.length : ℚ))

/-- The relevance one pass of `accumPostings` adds for a given document: the
term frequency recorded for it times the word's IDF when the predicate
accepts the document, `0` when it has no posting. -/
def postingContribution (docs : List (Int × DocumentData))
    (pred : Int → DocumentStatus → Int → Bool) (idfv : ℚ)
    (ps : List (Int × ℚ)) (id : Int) : ℚ :=
  match alookup id ps with
  | some tf => if predAt docs pred id then tf * idfv else 0
  | none => 0

/-- Strictly increasing key order: the representation invariant of a
`std::map` as an association list. -/
def SortedKeys {K V : Type} [LT K] (m : List (K × V)) : Prop :=
  List.Pairwise (fun p q => p.1 < q.1) m

/-- Lookup with default `0`: the running relevance a document has
accumulated so far. -/
def rlookQ (m : List (Int × ℚ)) (id : Int) : ℚ :=
  (alookup id m).getD 0

/-- Every posting map of the inverted index respects the `std::map`
representation invariant. -/
def WellFormedPostings (s : SearchServer) : Prop :=
  ∀ wp ∈ s.word_to_document_freqs, SortedKeys wp.2

/-- A constant stand-in for `std::log`, used to evaluate witnesses. -/
def rlogOne : ℚ → ℚ := fun _ => 1

/-- The always-true document predicate, used to evaluate witnesses. -/
def predTrue : Int → DocumentStatus → Int → Bool := fun _ _ _ => true

/-- A concrete two-document engine state (stop word "the"; document 0 is
"white cat" with rating 2, document 3 is "white red square" with rating 5),
used to evaluate witnesses. -/
def srvTwo : SearchServer :=
  ⟨["the"],
   [("cat", [(0, 1/2)]), ("red", [(3, 1/3)]), ("square", [(3, 1/3)]),
    ("white", [(0, 1/2), (3, 1/3)])],
   [(0, ⟨2, DocumentStatus.ACTUAL⟩), (3, ⟨5, DocumentStatus.ACTUAL⟩)],
   [0, 3]⟩

/-! ## Helper lemmas -/

theorem alookup_none_aemplaceD_length (k : Int) (v : DocumentData) :
    ∀ (m : List (Int × DocumentData)), alookup k m = none →
    (aemplaceD k v m).length = m.length + 1 := by
  intro m
  induction m with
  | nil => intro _; rfl
  | cons p rest ih =>
    intro h
    obtain ⟨k', v'⟩ := p
    unfold alookup at h
    by_cases hk : k = k'
    · simp [hk] at h
    · simp only [if_neg hk] at h
      unfold aemplaceD
      by_cases hlt : k < k'
      · simp [hlt]
      · simp only [if_neg hlt, if_neg hk, List.length_cons, ih h]

theorem getD_append_length (l : List Int) (x : Int) :
    (l ++ [x]).getD l.length 0 = x := by
  induction l with
  | nil => rfl
  | cons a rest ih =>
    simp only [List.cons_append, List.length_cons, List.getD_cons_succ]
    exact ih

theorem splitNoStopLoop_all_stop (sw : List String) :
    ∀ (l : List String),
    (∀ w ∈ l, isValidWord w = true ∧ isStopWord sw w = true) →
    splitNoStopLoop sw l = .ok [] := by
  intro l
  induction l with
  | nil => intro _; rfl
  | cons w ws ih =>
    intro h
    obtain ⟨hv, hs⟩ := h w (by simp)
    unfold splitNoStopLoop
    rw [hv, if_pos rfl, hs, if_pos rfl]
    exact ih (fun w' hw' => h w' (by simp [hw']))

theorem parseQueryLoop_error_head (sw : List String) (t : String)
    (rest : List String) (e : SSError) (ht : parseQueryWord sw t = .error e) :
    ∀ q : Query, parseQueryLoop sw q (t :: rest) = .error e := by
  intro q
  unfold parseQueryLoop
  rw [ht]

theorem parseQueryLoop_append_error (sw : List String) (e : SSError) :
    ∀ (pre : List String) (q : Query) (l : List String),
    (∀ w ∈ pre, ∃ qw, parseQueryWord sw w = .ok qw) →
    (∀ q' : Query, parseQueryLoop sw q' l = .error e) →
    parseQueryLoop sw q (pre ++ l) = .error e := by
  intro pre
  induction pre with
  | nil => intro q l _ hl; simpa using hl q
  | cons w ws ih =>
    intro q l hpre hl
    obtain ⟨qw, hqw⟩ := hpre w (by simp)
    have hws : ∀ w' ∈ ws, ∃ qw', parseQueryWord sw w' = .ok qw' :=
      fun w' hw' => hpre w' (by simp [hw'])
    show parseQueryLoop sw q (w :: (ws ++ l)) = .error e
    unfold parseQueryLoop
    rw [hqw]
    show (if qw.is_stop = true then parseQueryLoop sw q (ws ++ l)
      else if qw.is_minus = true then
        parseQueryLoop sw { q with minus_words := sinsert qw.data q.minus_words } (ws ++ l)
      else
        parseQueryLoop sw { q with plus_words := sinsert qw.data q.plus_words } (ws ++ l))
      = .error e
    by_cases hstop : qw.is_stop = true
    · rw [if_pos hstop]; exact ih _ _ hws hl
    · rw [if_neg hstop]
      by_cases hminus : qw.is_minus = true
      · rw [if_pos hminus]; exact ih _ _ hws hl
      · rw [if_neg hminus]; exact ih _ _ hws hl

/-! ## Claim C4 -/

/-- Claim C4: whenever `AddDocument` fails (negative id, duplicate id, or an
invalid token in the document text), the inverted index, document store,
document count and insertion-order sequence are exactly what they were
before the call: every throw happens before the first mutation. -/
theorem addDocument_failure_leaves_state_unchanged
    (s : SearchServer) (document_id : Int) (document : String)
    (status : DocumentStatus) (ratings : List Int) (e : SSError)
    (h : (addDocumentRun s document_id document status ratings).2 = some e) :
    (addDocumentRun s document_id document status ratings).1.word_to_document_freqs
        = s.word_to_document_freqs ∧
    (addDocumentRun s document_id document status ratings).1.documents = s.documents ∧
    getDocumentCount (addDocumentRun s document_id document status ratings).1
        = getDocumentCount s ∧
    (addDocumentRun s document_id document status ratings).1.document_id_sequence
        = s.document_id_sequence := by
  have hs : (addDocumentRun s document_id document status ratings).1 = s := by
    by_cases h1 : document_id < 0
    · simp [addDocumentRun, h1]
    · by_cases h2 : (alookup document_id s.documents).isSome
      · simp [addDocumentRun, h1, h2]
      · rcases hsp : splitIntoWordsNoStop s.stop_words document with e' | words
        · simp [addDocumentRun, h1, h2, hsp]
        · exfalso
          simp [addDocumentRun, h1, h2, hsp] at h
  rw [hs]
  exact ⟨rfl, rfl, rfl, rfl⟩

/-- Witness for C4: adding id 0 a second time fails and leaves the concrete
two-document state untouched. -/
theorem addDocument_failure_leaves_state_unchanged_witness :
    (addDocumentRun srvTwo 0 "grey hound" DocumentStatus.ACTUAL [1]).2
        = some SSError.duplicateDocumentId ∧
    (addDocumentRun srvTwo 0 "grey hound" DocumentStatus.ACTUAL [1]).1.word_to_document_freqs
        = srvTwo.word_to_document_freqs ∧
    (addDocumentRun srvTwo 0 "grey hound" DocumentStatus.ACTUAL [1]).1.documents
        = srvTwo.documents ∧
    getDocumentCount (addDocumentRun srvTwo 0 "grey hound" DocumentStatus.ACTUAL [1]).1
        = getDocumentCount srvTwo ∧
    (addDocumentRun srvTwo 0 "grey hound" DocumentStatus.ACTUAL [1]).1.document_id_sequence
        = srvTwo.document_id_sequence :=
  ⟨by decide,
   addDocument_failure_leaves_state_unchanged srvTwo 0 "grey hound"
     DocumentStatus.ACTUAL [1] SSError.duplicateDocumentId (by decide)⟩

/-! ## Claim C6 -/

/-- Counterexample for C6 as stated: the query "- --tail" contains the
double-minus token "--tail", yet parsing fails with the bare-dash condition,
because the bare token "-" errors first. -/
theorem parseQuery_double_minus_counterexample :
    parseQuery [] "- --tail" = .error SSError.bareMinus ∧
    SSError.bareMinus ≠ SSError.doubleMinus :=
  ⟨rfl, by decide⟩

/-- Claim C6 (amended): the error reported is that of the first offending
token in token order.  If every token before `t` parses without error, then:
a valid-charactered `t` whose remainder after stripping one leading minus
begins with another minus yields the double-minus condition, and `t`
exactly "-" yields the bare-dash condition. -/
theorem parseQuery_first_offending_token (sw : List String) (text : String)
    (pre rest : List String) (t : String)
    (hsplit : splitIntoWords text = pre ++ t :: rest)
    (hpre : ∀ w ∈ pre, ∃ qw, parseQueryWord sw w = .ok qw) :
    (isValidWord t = true → strIndex0 t = '-' →
       strIndex0 (String.mk t.data.tail) = '-' →
       parseQuery sw text = .error SSError.doubleMinus) ∧
    (t = "-" → parseQuery sw text = .error SSError.bareMinus) := by
  constructor
  · intro hv h1 h2
    have ht : parseQueryWord sw t = .error SSError.doubleMinus := by
      unfold parseQueryWord
      rw [hv, if_pos rfl, if_pos h1, if_pos h2]
    unfold parseQuery
    rw [hsplit]
    exact parseQueryLoop_append_error sw _ pre _ _ hpre
      (parseQueryLoop_error_head sw t rest _ ht)
  · intro ht0
    subst ht0
    have ht : parseQueryWord sw "-" = .error SSError.bareMinus := rfl
    unfold parseQuery
    rw [hsplit]
    exact parseQueryLoop_append_error sw _ pre _ _ hpre
      (parseQueryLoop_error_head sw "-" rest _ ht)

/-- Witness for C6: "cat --tail" fails with the double-minus condition. -/
theorem parseQuery_first_offending_token_witness :
    parseQuery [] "cat --tail" = .error SSError.doubleMinus :=
  (parseQuery_first_offending_token [] "cat --tail" ["cat"] [] "--tail" rfl
    (by
      intro w hw
      simp only [List.mem_singleton] at hw
      subst hw
      exact ⟨⟨"cat", false, false⟩, rfl⟩)).1 (by decide) (by decide) (by decide)

/-! ## Claim C7 -/

/-- Claim C7 (code evaluated at the failing input): `Paginate` performs no
page-size validation; a zero page size reaches `range_size_ % page_size`
and divides by zero instead of failing with `InvalidArgument`. -/
theorem paginate_zero_page_size {α : Type} (c : List α) :
    paginate c 0 = .error PaginatorError.divisionByZero := rfl

/-! ## Claim C9 -/

/-- Claim C9: for a non-negative id absent from the store and a valid
non-empty query, `MatchDocument` does not return an empty result: the
term-frequency lookups silently find nothing, but the final
`documents_.at(document_id)` status lookup throws out-of-range. -/
theorem matchDocument_absent_id_out_of_range (s : SearchServer)
    (raw_query : String) (document_id : Int) (query : Query)
    (hid : 0 ≤ document_id)
    (habs : alookup document_id s.documents = none)
    (hq : parseQuery s.stop_words raw_query = .ok query)
    (hne : raw_query ≠ "") :
    matchDocument s raw_query document_id = .error SSError.mapAtOutOfRange := by
  have h0 : ¬ document_id < 0 := not_lt.mpr hid
  simp [matchDocument, h0, hq, hne, mapAt, habs]

/-- Witness for C9: matching "white" against the absent id 7 in the concrete
two-document state fails with the out-of-range lookup. -/
theorem matchDocument_absent_id_out_of_range_witness :
    matchDocument srvTwo "white" 7 = .error SSError.mapAtOutOfRange :=
  matchDocument_absent_id_out_of_range srvTwo "white" 7 ⟨["white"], []⟩
    (by decide) (by decide) rfl (by decide)

/-! ## Claim C10 -/

/-- Claim C10: `AddDocument` with a fresh non-negative id whose text consists
only of (valid) stop words — in particular empty text — succeeds: the
document count grows by one, the id is appended to the insertion-order
sequence and is retrievable positionally, and the inverted index is
unchanged, so the `1.0 / 0` term frequency is never stored. -/
theorem addDocument_stop_words_only_text
    (s : SearchServer) (document_id : Int) (text : String)
    (status : DocumentStatus) (ratings : List Int)
    (hid : 0 ≤ document_id)
    (hfresh : alookup document_id s.documents = none)
    (hlen : s.document_id_sequence.length = s.documents.length)
    (hwords : ∀ w ∈ splitIntoWords text,
       isValidWord w = true ∧ isStopWord s.stop_words w = true) :
    ∃ s', addDocument s document_id text status ratings = .ok s' ∧
      s'.word_to_document_freqs = s.word_to_document_freqs ∧
      getDocumentCount s' = getDocumentCount s + 1 ∧
      s'.document_id_sequence = s.document_id_sequence ++ [document_id] ∧
      getDocumentId s' (getDocumentCount s) = .ok document_id := by
  have hsp : splitIntoWordsNoStop s.stop_words text = .ok [] :=
    splitNoStopLoop_all_stop _ _ hwords
  have h0 : ¬ document_id < 0 := not_lt.mpr hid
  have h2 : ¬ ((alookup document_id s.documents).isSome = true) := by
    rw [hfresh]
    exact Bool.false_ne_true
  have hrun : addDocumentRun s document_id text status ratings =
      ({ s with
          documents :=
            aemplaceD document_id ⟨computeAverageRating ratings, status⟩ s.documents,
          document_id_sequence := s.document_id_sequence ++ [document_id] },
        none) := by
    unfold addDocumentRun
    rw [if_neg h0, if_neg h2, hsp]
    rfl
  have hcount : (aemplaceD document_id ⟨computeAverageRating ratings, status⟩
      s.documents).length = s.documents.length + 1 :=
    alookup_none_aemplaceD_length _ _ _ hfresh
  refine ⟨{ s with
      documents :=
        aemplaceD document_id ⟨computeAverageRating ratings, status⟩ s.documents,
      document_id_sequence := s.document_id_sequence ++ [document_id] },
    ?_, rfl, ?_, rfl, ?_⟩
  · unfold addDocument
    rw [hrun]
  · show ((aemplaceD document_id _ s.documents).length : Int)
        = (s.documents.length : Int) + 1
    rw [hcount]
    push_cast
    ring
  · show getDocumentId _ (s.documents.length : Int) = .ok document_id
    unfold getDocumentId
    rw [if_pos]
    · show Except.ok ((s.document_id_sequence ++ [document_id]).getD
          ((s.documents.length : Int)).toNat 0) = .ok document_id
      rw [Int.toNat_natCast, ← hlen, getD_append_length]
    · constructor
      · positivity
      · show (s.documents.length : Int)
            < ((aemplaceD document_id _ s.documents).length : Int)
        rw [hcount]
        push_cast
        omega

/-- Witness for C10: adding the fresh id 7 with the stop-word-only text
"the the" to the concrete two-document state. -/
theorem addDocument_stop_words_only_text_witness :
    ∃ s', addDocument srvTwo 7 "the the" DocumentStatus.BANNED [] = .ok s' ∧
      s'.word_to_document_freqs = srvTwo.word_to_document_freqs ∧
      getDocumentCount s' = getDocumentCount srvTwo + 1 ∧
      s'.document_id_sequence = srvTwo.document_id_sequence ++ [7] ∧
      getDocumentId s' (getDocumentCount srvTwo) = .ok 7 :=
  addDocument_stop_words_only_text srvTwo 7 "the the" DocumentStatus.BANNED []
    (by decide) (by decide) (by decide) (by decide)

/-! ## Claim C1: sorting lemmas -/

theorem chain_orderedInsert {α : Type} (R : α → α → Prop) [DecidableRel R]
    (htot : ∀ a b, R a b ∨ R b a) (a : α) :
    ∀ l : List α, l.Chain' R → (List.orderedInsert R a l).Chain' R := by
  intro l
  induction l with
  | nil =>
    intro _
    simp [List.orderedInsert]
  | cons b bs ih =>
    intro h
    rw [List.orderedInsert]
    by_cases hab : R a b
    · rw [if_pos hab]
      exact List.chain'_cons.mpr ⟨hab, h⟩
    · rw [if_neg hab]
      have hba : R b a := (htot a b).resolve_left hab
      have htail : bs.Chain' R := (List.chain'_cons'.mp h).2
      rw [List.chain'_cons']
      refine ⟨?_, ih htail⟩
      intro y hy
      cases bs with
      | nil =>
        simp [List.orderedInsert] at hy
        subst hy
        exact hba
      | cons c cs =>
        rw [List.orderedInsert] at hy
        by_cases hac : R a c
        · rw [if_pos hac] at hy
          simp at hy
          subst hy
          exact hba
        · rw [if_neg hac] at hy
          simp at hy
          subst hy
          exact (List.chain'_cons.mp h).1

theorem chain_insertionSort {α : Type} (R : α → α → Prop) [DecidableRel R]
    (htot : ∀ a b, R a b ∨ R b a) :
    ∀ l : List α, (List.insertionSort R l).Chain' R := by
  intro l
  induction l with
  | nil => simp [List.insertionSort]
  | cons a l ih =>
    rw [List.insertionSort]
    exact chain_orderedInsert R htot a _ ih

theorem chain_take {α : Type} (R : α → α → Prop) :
    ∀ (l : List α) (n : Nat), l.Chain' R → (l.take n).Chain' R := by
  intro l
  induction l with
  | nil =>
    intro n _
    simp
  | cons a l ih =>
    intro n h
    cases n with
    | zero => simp
    | succ m =>
      rw [List.take_succ_cons, List.chain'_cons']
      refine ⟨?_, ih m (List.chain'_cons'.mp h).2⟩
      intro y hy
      refine (List.chain'_cons'.mp h).1 y ?_
      cases l with
      | nil => simp at hy
      | cons b bs =>
        cases m with
        | zero => simp at hy
        | succ k =>
          simp only [List.take_succ_cons, List.head?_cons] at hy ⊢
          exact hy

theorem docLt_total (a b : Document) : docLt a b = false ∨ docLt b a = false := by
  unfold docLt
  by_cases h : |a.relevance - b.relevance| < EPSILON
  · have h' : |b.relevance - a.relevance| < EPSILON := by
      rw [abs_sub_comm]; exact h
    rw [if_pos h, if_pos h']
    rcases le_total a.rating b.rating with h1 | h1
    · left
      exact decide_eq_false_iff_not.mpr (not_lt.mpr h1)
    · right
      exact decide_eq_false_iff_not.mpr (not_lt.mpr h1)
  · have h' : ¬ |b.relevance - a.relevance| < EPSILON := by
      rw [abs_sub_comm]; exact h
    rw [if_neg h, if_neg h']
    rcases le_total a.relevance b.relevance with h1 | h1
    · left
      exact decide_eq_false_iff_not.mpr (not_lt.mpr h1)
    · right
      exact decide_eq_false_iff_not.mpr (not_lt.mpr h1)

theorem docLt_false_iff (a b : Document) :
    (docLt b a = false) ↔
    (if |a.relevance - b.relevance| < EPSILON then b.rating ≤ a.rating
     else b.relevance ≤ a.relevance) := by
  unfold docLt
  by_cases h : |a.relevance - b.relevance| < EPSILON
  · have h' : |b.relevance - a.relevance| < EPSILON := by
      rw [abs_sub_comm]; exact h
    rw [if_pos h, if_pos h', decide_eq_false_iff_not, not_lt]
  · have h' : ¬ |b.relevance - a.relevance| < EPSILON := by
      rw [abs_sub_comm]; exact h
    rw [if_neg h, if_neg h', decide_eq_false_iff_not, not_lt]

/-! ## Claim C1 -/

/-- Claim C1: whenever `FindTopDocuments` returns a result list, it has at
most 5 entries and is sorted by relevance descending, adjacent documents
whose relevance differs by less than `EPSILON = 1e-6` being tied and ordered
by rating descending (the exact comparator of the source). -/
theorem findTopDocuments_sorted_truncated (s : SearchServer) (rlog : ℚ → ℚ)
    (raw_query : String) (pred : Int → DocumentStatus → Int → Bool)
    (res : List Document)
    (h : findTopDocuments s rlog raw_query pred = .ok res) :
    res.length ≤ 5 ∧
    res.Chain' (fun a b =>
      if |a.relevance - b.relevance| < EPSILON then b.rating ≤ a.rating
      else b.relevance ≤ a.relevance) := by
  unfold findTopDocuments at h
  rcases hq : parseQuery s.stop_words raw_query with e | query
  · rw [hq] at h
    exact absurd h (by simp)
  · rw [hq] at h
    by_cases hraw : raw_query = ""
    · simp [hraw] at h
    · simp only [if_neg hraw] at h
      rcases hall : findAllDocuments s rlog query pred with e | matched
      · rw [hall] at h
        exact absurd h (by simp)
      · simp only [hall, Except.ok.injEq] at h
        have htot : ∀ a b : Document,
            (docLt b a = false) ∨ (docLt a b = false) :=
          fun a b => docLt_total b a
        have hchain : (List.insertionSort (fun a b => docLt b a = false)
            matched).Chain' (fun a b => docLt b a = false) :=
          chain_insertionSort _ htot matched
        have hconv : ∀ l : List Document,
            l.Chain' (fun a b => docLt b a = false) →
            l.Chain' (fun a b =>
              if |a.relevance - b.relevance| < EPSILON then b.rating ≤ a.rating
              else b.relevance ≤ a.relevance) :=
          fun l hl => hl.imp (fun a b hab => (docLt_false_iff a b).mp hab)
        subst h
        by_cases hlen : MAX_RESULT_DOCUMENT_COUNT <
            (List.insertionSort (fun a b => docLt b a = false) matched).length
        · rw [if_pos hlen]
          constructor
          · exact List.length_take_le _ _
          · exact hconv _ (chain_take _ _ _ hchain)
        · rw [if_neg hlen]
          constructor
          · exact not_lt.mp hlen
          · exact hconv _ hchain

/-- Witness for C1: the query "cat" on the concrete two-document state
returns the single document 0 (no comparator tie to resolve, one page of
results). -/
theorem findTopDocuments_sorted_truncated_witness :
    ([⟨0, 1/2 * rlogOne ((2 : ℚ) / (1 : ℚ)), 2⟩] : List Document).length ≤ 5 ∧
    ([⟨0, 1/2 * rlogOne ((2 : ℚ) / (1 : ℚ)), 2⟩] : List Document).Chain' (fun a b =>
      if |a.relevance - b.relevance| < EPSILON then b.rating ≤ a.rating
      else b.relevance ≤ a.relevance) :=
  findTopDocuments_sorted_truncated srvTwo rlogOne "cat" predTrue
    [⟨0, 1/2 * rlogOne ((2 : ℚ) / (1 : ℚ)), 2⟩] rfl

/-! ## Claim C5 -/

theorem matchPlusLoop_eq_filter (idx : List (String × List (Int × ℚ))) (id : Int) :
    ∀ ws : List String,
    matchPlusLoop idx id ws = ws.filter (postingHasId idx id) := by
  intro ws
  induction ws with
  | nil => rfl
  | cons w ws ih =>
    rcases hw : alookup w idx with _ | postings
    · simp [matchPlusLoop, postingHasId, hw, List.filter_cons, ih]
    · by_cases hsome : (alookup id postings).isSome = true
      · simp [matchPlusLoop, postingHasId, hw, List.filter_cons, hsome, ih]
      · simp [matchPlusLoop, postingHasId, hw, List.filter_cons, hsome, ih]

theorem minusHit_eq_any (idx : List (String × List (Int × ℚ))) (id : Int) :
    ∀ ws : List String,
    minusHit idx id ws = ws.any (postingHasId idx id) := by
  intro ws
  induction ws with
  | nil => rfl
  | cons w ws ih =>
    rcases hw : alookup w idx with _ | postings
    · simp [minusHit, postingHasId, hw, List.any_cons, ih]
    · by_cases hsome : (alookup id postings).isSome = true
      · simp [minusHit, postingHasId, hw, List.any_cons, hsome, ih]
      · simp [minusHit, postingHasId, hw, List.any_cons, hsome, ih]

/-- Claim C5: for a valid non-empty query and a stored non-negative id,
`MatchDocument` returns the plus-query terms having a posting for the
document, together with the document's status; when any minus term has a
posting for the document the term list is empty but the status is still
returned; a negative id fails with the `InvalidArgument` condition. -/
theorem matchDocument_matched_words_spec (s : SearchServer)
    (raw_query : String) (document_id : Int) :
    (∀ (dd : DocumentData) (query : Query),
      parseQuery s.stop_words raw_query = .ok query → raw_query ≠ "" →
      0 ≤ document_id → alookup document_id s.documents = some dd →
      matchDocument s raw_query document_id =
        .ok (if query.minus_words.any
                (postingHasId s.word_to_document_freqs document_id)
             then []
             else query.plus_words.filter
                (postingHasId s.word_to_document_freqs document_id),
             dd.status)) ∧
    (document_id < 0 →
      matchDocument s raw_query document_id = .error SSError.negativeDocumentId) := by
  constructor
  · intro dd query hq hne hid hdd
    have h0 : ¬ document_id < 0 := not_lt.mpr hid
    unfold matchDocument
    rw [if_neg h0]
    simp only [hq, if_neg hne, mapAt, hdd]
    rw [matchPlusLoop_eq_filter, minusHit_eq_any]
  · intro hneg
    unfold matchDocument
    rw [if_pos hneg]

/-- Witness for C5: on the concrete two-document state, matching
"white red -cat" against document 3 (no "cat" posting) returns both plus
words and the status, and a negative id fails. -/
theorem matchDocument_matched_words_spec_witness :
    matchDocument srvTwo "white red -cat" 3
        = .ok (["red", "white"], DocumentStatus.ACTUAL) ∧
    matchDocument srvTwo "white red -cat" (-1)
        = .error SSError.negativeDocumentId :=
  ⟨(matchDocument_matched_words_spec srvTwo "white red -cat" 3).1
      ⟨5, DocumentStatus.ACTUAL⟩ ⟨["red", "white"], ["cat"]⟩ rfl
      (by decide) (by decide) rfl,
   (matchDocument_matched_words_spec srvTwo "white red -cat" (-1)).2 (by decide)⟩

/-! ## Claim C8 -/

theorem buildPages_mem_bounds (p n : Nat) :
    ∀ (k b : Nat), (0 < k → b + (k - 1) * p < n) →
    ∀ r ∈ buildPages p n k b, r.page_begin ≤ r.page_end ∧ r.page_end ≤ n := by
  intro k
  induction k with
  | zero =>
    intro b _ r hr
    simp [buildPages] at hr
  | succ k ih =>
    intro b hb r hr
    cases k with
    | zero =>
      simp only [buildPages, List.mem_singleton] at hr
      subst hr
      have hbn : b < n := by
        have := hb (by omega)
        simpa using this
      refine ⟨?_, ?_⟩
      · show b ≤ n
        omega
      · show n ≤ n
        omega
    | succ m =>
      rw [buildPages] at hr
      rcases List.mem_cons.mp hr with hr | hr
      · subst hr
        have hbb : b + (m + 1) * p < n := by
          have := hb (by omega)
          simpa using this
        have hple : p ≤ (m + 1) * p := Nat.le_mul_of_pos_left p (by omega)
        refine ⟨?_, ?_⟩
        · show b ≤ b + p
          omega
        · show b + p ≤ n
          omega
      · refine ih (b + p) ?_ r hr
        intro _
        have hbb : b + (m + 1) * p < n := by
          have := hb (by omega)
          simpa using this
        have hmul : (m + 1) * p = m * p + p := Nat.succ_mul m p
        simp only [Nat.add_sub_cancel]
        omega

/-- Claim C8: every page `Paginate` produces reports, as its size, exactly
the number of elements contained in that page (the count of elements
between the page's begin and end) — stated for the spec-mandated
`sizeSpec`, since the C++ `IteratorRange::size` body does not compile. -/
theorem paginator_page_size_reports_element_count {α : Type} (c : List α)
    (page_size : Nat) (pages : List IteratorRange) (r : IteratorRange)
    (hp : paginate c page_size = .ok pages) (hr : r ∈ pages) :
    r.sizeSpec = (r.elems c).length := by
  unfold paginate at hp
  by_cases h0 : page_size = 0
  · rw [if_pos h0] at hp
    exact absurd hp (by simp)
  · rw [if_neg h0] at hp
    simp only [Except.ok.injEq] at hp
    subst hp
    have hbound := buildPages_mem_bounds page_size c.length
      (if c.length % page_size > 0 then c.length / page_size + 1
       else c.length / page_size) 0 ?_ r hr
    · obtain ⟨h1, h2⟩ := hbound
      unfold IteratorRange.sizeSpec IteratorRange.elems
      rw [List.length_drop, List.length_take]
      omega
    · intro hk
      have hdm := Nat.div_add_mod c.length page_size
      by_cases hmod : c.length % page_size > 0
      · rw [if_pos hmod]
        simp only [Nat.add_sub_cancel, Nat.zero_add]
        rw [Nat.mul_comm]
        omega
      · rw [if_neg hmod] at hk ⊢
        have hq0 : 0 < c.length / page_size := hk
        have hsub : (c.length / page_size - 1) * page_size
            = (c.length / page_size) * page_size - page_size := by
          rw [Nat.sub_mul, Nat.one_mul]
        have hqp : (c.length / page_size) * page_size
            = page_size * (c.length / page_size) := Nat.mul_comm _ _
        have hple : page_size ≤ page_size * (c.length / page_size) :=
          Nat.le_mul_of_pos_right page_size hq0
        simp only [Nat.zero_add]
        omega

/-- Witness for C8: the first page of paginating a three-element list with
page size 2 contains two elements and reports size 2. -/
theorem paginator_page_size_reports_element_count_witness :
    IteratorRange.sizeSpec ⟨0, 2⟩
        = (IteratorRange.elems [10, 20, 30] ⟨0, 2⟩).length :=
  paginator_page_size_reports_element_count [10, 20, 30] 2 [⟨0, 2⟩, ⟨2, 3⟩]
    ⟨0, 2⟩ rfl (by decide)

/-! ## Claim C3: sliding-window lemmas -/

theorem indexedFrom_length : ∀ (ps : List Nat) (i : Nat),
    (indexedFrom i ps).length = ps.length := by
  intro ps
  induction ps with
  | nil => intro i; rfl
  | cons p ps ih =>
    intro i
    simp [indexedFrom, ih]

theorem indexedFrom_concat : ∀ (ps : List Nat) (i q : Nat),
    indexedFrom i (ps ++ [q]) = indexedFrom i ps ++ [(ps.length + i, q)] := by
  intro ps
  induction ps with
  | nil =>
    intro i q
    simp [indexedFrom]
  | cons p ps ih =>
    intro i q
    show (i, p) :: indexedFrom (i + 1) (ps ++ [q])
        = ((i, p) :: indexedFrom (i + 1) ps) ++ [((p :: ps).length + i, q)]
    rw [ih, List.cons_append]
    have h : ps.length + (i + 1) = (p :: ps).length + i := by
      simp only [List.length_cons]
      omega
    rw [h]

theorem indexed_concat (ps : List Nat) (q : Nat) :
    indexed (ps ++ [q]) = indexed ps ++ [(ps.length + 1, q)] :=
  indexedFrom_concat ps 1 q

theorem indexedFrom_map_snd : ∀ (ps : List Nat) (i : Nat),
    (indexedFrom i ps).map Prod.snd = ps := by
  intro ps
  induction ps with
  | nil => intro i; rfl
  | cons p ps ih =>
    intro i
    simp [indexedFrom, ih]

theorem countZeros_cons (x : Nat) (l : List Nat) :
    countZeros (x :: l) = countZeros l + (if x = 0 then 1 else 0) := by
  unfold countZeros
  rw [List.countP_cons]
  by_cases hx : x = 0 <;> simp [hx]

theorem countZeros_append (l₁ l₂ : List Nat) :
    countZeros (l₁ ++ l₂) = countZeros l₁ + countZeros l₂ := by
  unfold countZeros
  exact List.countP_append _ _ _

theorem countZeros_singleton (q : Nat) :
    countZeros [q] = if q = 0 then 1 else 0 := by
  by_cases hq : q = 0 <;> simp [countZeros, hq]

theorem queueInv_step (rq : RequestQueue) (ps : List Nat) (q : Nat)
    (h : QueueInv rq ps) : QueueInv (recordRequest rq q) (ps ++ [q]) := by
  have hmd : min_in_day = 1440 := rfl
  have hlen1 : (ps ++ [q]).length = ps.length + 1 := by simp
  obtain ⟨reqs, cid⟩ := rq
  rcases hreq : reqs with _ | ⟨front, others⟩
  · subst hreq
    obtain ⟨hid0, hmap0, hemp0, hback0⟩ := h
    have hps : ps = [] := hemp0 rfl
    subst hps
    have hcid : cid = 0 := hid0
    subst hcid
    have hrecE : recordRequest ⟨[], 0⟩ q
        = ⟨[⟨1, q, if q = 0 then (1 : Int) else 0⟩], 1⟩ := rfl
    rw [hrecE]
    refine ⟨by simp, by simp [indexed, indexedFrom, min_in_day], ?_, ?_⟩
    · intro habs
      simp at habs
    · intro back hb
      simp only [List.getLast?_singleton, Option.some.injEq] at hb
      subst hb
      by_cases hq : q = 0 <;>
        simp [windowOf, countZeros_singleton, hq, min_in_day]
  · subst hreq
    obtain ⟨hid0, hmap0, hemp0, hback0⟩ := h
    have hid : cid = ps.length := hid0
    have hmap : (front :: others).map
        (fun r => (r.request_time, r.number_of_request_results))
        = (indexed ps).drop (ps.length - min_in_day) := hmap0
    have hback : ∀ back, (front :: others).getLast? = some back →
        back.number_of_no_results = (countZeros (windowOf ps) : Int) := hback0
    have hb0 : ∃ b, (front :: others).getLast? = some b := by
      rcases hl : (front :: others).getLast? with _ | b
      · rw [List.getLast?_eq_none_iff] at hl
        exact absurd hl (by simp)
      · exact ⟨b, rfl⟩
    obtain ⟨b, hlb⟩ := hb0
    have hbc : b.number_of_no_results = (countZeros (windowOf ps) : Int) :=
      hback b hlb
    have hprev : List.getLastD (front :: others) front = b := by
      rw [List.getLastD_eq_getLast?, hlb]
      rfl
    have hL : (front :: others).length
        = ps.length - (ps.length - min_in_day) := by
      have := congrArg List.length hmap
      simpa [indexedFrom_length, indexed] using this
    have hsnd : front.number_of_request_results ::
        (others.map (fun r => r.number_of_request_results))
        = ps.drop (ps.length - min_in_day) := by
      have := congrArg (List.map Prod.snd) hmap
      simp only [List.map_map, List.map_drop] at this
      have h2 : (indexed ps).map Prod.snd = ps := indexedFrom_map_snd ps 1
      rw [h2] at this
      simpa using this
    have htail : others.map
        (fun r => (r.request_time, r.number_of_request_results))
        = (indexed ps).drop (ps.length - min_in_day + 1) := by
      have := congrArg List.tail hmap
      simp only [List.map_cons, List.tail_cons, List.tail_drop] at this
      exact this
    have hrec0 : recordRequest ⟨front :: others, cid⟩ q =
        (if (front :: others).length = min_in_day then
          { requests := others ++ [⟨cid + 1, q,
              (List.getLastD (front :: others) front).number_of_no_results
              + (if q = 0 then (1 : Int) else 0)
              - (if front.number_of_request_results = 0 then (1 : Int) else 0)⟩],
            current_request_id := cid + 1 }
         else
          { requests := (front :: others) ++ [⟨cid + 1, q,
              (List.getLastD (front :: others) front).number_of_no_results
              + (if q = 0 then (1 : Int) else 0)⟩],
            current_request_id := cid + 1 }) := rfl
    by_cases hfull : (front :: others).length = min_in_day
    · have hk : min_in_day ≤ ps.length := by omega
      have hix : ps.length - min_in_day + 1 = ps.length + 1 - min_in_day := by
        omega
      rw [hrec0, if_pos hfull, hprev]
      refine ⟨?_, ?_, ?_, ?_⟩
      · show cid + 1 = (ps ++ [q]).length
        rw [hlen1, hid]
      · show (others ++ [(⟨cid + 1, q,
            b.number_of_no_results + (if q = 0 then (1 : Int) else 0)
            - (if front.number_of_request_results = 0 then (1 : Int) else 0)⟩
            : QueryResult)]).map
              (fun r => (r.request_time, r.number_of_request_results))
          = (indexed (ps ++ [q])).drop ((ps ++ [q]).length - min_in_day)
        rw [List.map_append, htail, hlen1, indexed_concat]
        have hle : ps.length + 1 - min_in_day ≤ (indexed ps).length := by
          rw [indexed, indexedFrom_length]
          omega
        rw [List.drop_append_of_le_length hle, hix, hid]
        rfl
      · intro habs
        simp at habs
      · intro back hb
        simp only [List.getLast?_concat, Option.some.injEq] at hb
        subst hb
        show b.number_of_no_results + (if q = 0 then (1 : Int) else 0)
            - (if front.number_of_request_results = 0 then (1 : Int) else 0)
          = (countZeros (windowOf (ps ++ [q])) : Int)
        have hwin : windowOf (ps ++ [q])
            = ps.drop (ps.length + 1 - min_in_day) ++ [q] := by
          unfold windowOf
          rw [hlen1]
          exact List.drop_append_of_le_length (by omega)
        have hdropsucc : ps.drop (ps.length - min_in_day + 1)
            = others.map (fun r => r.number_of_request_results) := by
          rw [← List.tail_drop, ← hsnd]
          rfl
        have hcz : countZeros (ps.drop (ps.length - min_in_day))
            = countZeros (ps.drop (ps.length - min_in_day + 1))
              + (if front.number_of_request_results = 0 then 1 else 0) := by
          rw [← hsnd, countZeros_cons, hdropsucc]
        have hwps : windowOf ps = ps.drop (ps.length - min_in_day) := rfl
        rw [hbc, hwps, hcz, hix, hwin, countZeros_append, countZeros_singleton]
        by_cases hq : q = 0 <;>
          by_cases hf : front.number_of_request_results = 0 <;>
            simp only [hq, hf, if_pos, if_neg, if_true, if_false] <;>
              push_cast <;> omega
    · have hk : ps.length < min_in_day := by omega
      have hj : ps.length - min_in_day = 0 := by omega
      have hj1 : ps.length + 1 - min_in_day = 0 := by omega
      rw [hj, List.drop_zero] at hmap
      rw [hrec0, if_neg hfull, hprev]
      refine ⟨?_, ?_, ?_, ?_⟩
      · show cid + 1 = (ps ++ [q]).length
        rw [hlen1, hid]
      · show ((front :: others) ++ [(⟨cid + 1, q,
            b.number_of_no_results + (if q = 0 then (1 : Int) else 0)⟩
            : QueryResult)]).map
              (fun r => (r.request_time, r.number_of_request_results))
          = (indexed (ps ++ [q])).drop ((ps ++ [q]).length - min_in_day)
        rw [List.map_append, hmap, hlen1, indexed_concat, hj1, List.drop_zero,
          hid]
        rfl
      · intro habs
        simp at habs
      · intro back hb
        simp only [List.getLast?_concat, Option.some.injEq] at hb
        subst hb
        show b.number_of_no_results + (if q = 0 then (1 : Int) else 0)
          = (countZeros (windowOf (ps ++ [q])) : Int)
        have hwin : windowOf (ps ++ [q]) = ps ++ [q] := by
          unfold windowOf
          rw [hlen1, hj1, List.drop_zero]
        have hwps : windowOf ps = ps := by
          unfold windowOf
          rw [hj, List.drop_zero]
        rw [hbc, hwps, hwin, countZeros_append, countZeros_singleton]
        by_cases hq : q = 0 <;>
          simp only [hq, if_true, if_false] <;> push_cast <;> omega

theorem queueInv_run : ∀ (qs : List Nat) (rq : RequestQueue) (ps : List Nat),
    QueueInv rq ps → QueueInv (runQueue rq qs) (ps ++ qs) := by
  intro qs
  induction qs with
  | nil =>
    intro rq ps h
    simpa [runQueue] using h
  | cons q qs ih =>
    intro rq ps h
    have h2 := ih (recordRequest rq q) (ps ++ [q]) (queueInv_step rq ps q h)
    have heq : runQueue rq (q :: qs) = runQueue (recordRequest rq q) qs := rfl
    rw [heq]
    have hps : ps ++ q :: qs = (ps ++ [q]) ++ qs := by simp
    rw [hps]
    exact h2

/-! ## Claim C3 -/

/-- Claim C3: folding any sequence of successful tracked result sizes
through the recording step of `AddFindRequest` (which `addFindRequest`
invokes on success by definition) leaves exactly `min(n, 1440)` records in
the window — the most recent requests, in order, oldest evicted first — and
the reported no-result count (`getNoResultRequests`, the incrementally
maintained running count) equals the number of zero-result requests among
those retained records. -/
theorem requestQueue_sliding_window (qs : List Nat) :
    (runQueue RequestQueue.init qs).requests.length
        = min qs.length min_in_day ∧
    (runQueue RequestQueue.init qs).requests.map
        (fun r => (r.request_time, r.number_of_request_results))
      = (indexed qs).drop (qs.length - min_in_day) ∧
    getNoResultRequests (runQueue RequestQueue.init qs)
      = (countZeros (qs.drop (qs.length - min_in_day)) : Int) := by
  have hinit : QueueInv RequestQueue.init [] := by
    refine ⟨rfl, rfl, fun _ => rfl, ?_⟩
    intro back hb
    simp [RequestQueue.init] at hb
  have h := queueInv_run qs RequestQueue.init [] hinit
  rw [List.nil_append] at h
  obtain ⟨hid, hmap, hemp, hback⟩ := h
  refine ⟨?_, hmap, ?_⟩
  · have := congrArg List.length hmap
    simp only [List.length_map, List.length_drop, indexed,
      indexedFrom_length] at this
    omega
  · rcases hlast : (runQueue RequestQueue.init qs).requests.getLast? with _ | b
    · rw [List.getLast?_eq_none_iff] at hlast
      have hqs := hemp hlast
      subst hqs
      simp [getNoResultRequests, hlast, countZeros]
    · have hb := hback b hlast
      simp only [getNoResultRequests, hlast]
      exact hb

/-! ## Claim C2: sorted-map lemmas -/

theorem alookup_eq_none_of_forall {K V : Type} [DecidableEq K] (k : K) :
    ∀ m : List (K × V), (∀ p ∈ m, k ≠ p.1) → alookup k m = none := by
  intro m
  induction m with
  | nil => intro _; rfl
  | cons p rest ih =>
    intro h
    obtain ⟨k', v'⟩ := p
    unfold alookup
    rw [if_neg (h (k', v') (by simp))]
    exact ih (fun p hp => h p (by simp [hp]))

theorem mem_of_alookup_eq_some {K V : Type} [DecidableEq K] (k : K) (v : V) :
    ∀ m : List (K × V), alookup k m = some v → (k, v) ∈ m := by
  intro m
  induction m with
  | nil => intro h; exact absurd h (by simp [alookup])
  | cons p rest ih =>
    intro h
    obtain ⟨k', v'⟩ := p
    unfold alookup at h
    by_cases hk : k = k'
    · rw [if_pos hk, Option.some.injEq] at h
      subst hk
      subst h
      exact List.mem_cons_self _ _
    · rw [if_neg hk] at h
      exact List.mem_cons_of_mem _ (ih h)

theorem alookup_of_mem_sorted {V : Type} (k : Int) (v : V) :
    ∀ m : List (Int × V), SortedKeys m → (k, v) ∈ m → alookup k m = some v := by
  intro m
  induction m with
  | nil => intro _ h; exact absurd h (by simp)
  | cons p rest ih =>
    intro hs hm
    obtain ⟨k', v'⟩ := p
    obtain ⟨hhead, htail⟩ := List.pairwise_cons.mp hs
    rcases List.mem_cons.mp hm with hm1 | hm2
    · have hk : k = k' := congrArg Prod.fst hm1
      have hv : v = v' := congrArg Prod.snd hm1
      unfold alookup
      rw [if_pos hk, ← hv]
    · have hk : k ≠ k' := by
        intro hkk
        subst hkk
        have h5 := hhead (k, v) hm2
        simp at h5
      unfold alookup
      rw [if_neg hk]
      exact ih htail hm2

theorem mem_updAddQ (k : Int) (v : ℚ) :
    ∀ (m : List (Int × ℚ)) (p : Int × ℚ),
    p ∈ updAddQ k v m → p.1 = k ∨ p ∈ m := by
  intro m
  induction m with
  | nil =>
    intro p hp
    simp [updAddQ] at hp
    left
    rw [hp]
  | cons q rest ih =>
    intro p hp
    obtain ⟨k', v'⟩ := q
    unfold updAddQ at hp
    by_cases h1 : k < k'
    · rw [if_pos h1] at hp
      rcases List.mem_cons.mp hp with hp | hp
      · left; rw [hp]
      · right; exact hp
    · rw [if_neg h1] at hp
      by_cases h2 : k = k'
      · rw [if_pos h2] at hp
        rcases List.mem_cons.mp hp with hp | hp
        · left
          rw [hp]
          exact h2.symm
        · right; exact List.mem_cons_of_mem _ hp
      · rw [if_neg h2] at hp
        rcases List.mem_cons.mp hp with hp | hp
        · right; rw [hp]; exact List.mem_cons_self _ _
        · rcases ih p hp with hk | hm
          · left; exact hk
          · right; exact List.mem_cons_of_mem _ hm

theorem sortedKeys_updAddQ (k : Int) (v : ℚ) :
    ∀ m : List (Int × ℚ), SortedKeys m → SortedKeys (updAddQ k v m) := by
  intro m
  induction m with
  | nil =>
    intro _
    simp [updAddQ, SortedKeys]
  | cons q rest ih =>
    intro hs
    obtain ⟨k', v'⟩ := q
    obtain ⟨hhead, htail⟩ := List.pairwise_cons.mp hs
    unfold updAddQ
    by_cases h1 : k < k'
    · rw [if_pos h1]
      refine List.pairwise_cons.mpr ⟨?_, hs⟩
      intro p hp
      rcases List.mem_cons.mp hp with hp | hp
      · rw [hp]; exact h1
      · exact lt_trans h1 (hhead p hp)
    · rw [if_neg h1]
      by_cases h2 : k = k'
      · rw [if_pos h2]
        exact List.pairwise_cons.mpr ⟨hhead, htail⟩
      · rw [if_neg h2]
        refine List.pairwise_cons.mpr ⟨?_, ih htail⟩
        intro p hp
        rcases mem_updAddQ k v rest p hp with hk | hm
        · rw [hk]
          omega
        · exact hhead p hm

theorem alookup_updAddQ_self (k : Int) (v : ℚ) :
    ∀ m : List (Int × ℚ), SortedKeys m →
    alookup k (updAddQ k v m) = some ((alookup k m).getD 0 + v) := by
  intro m
  induction m with
  | nil => intro _; simp [updAddQ, alookup]
  | cons q rest ih =>
    intro hs
    obtain ⟨k', v'⟩ := q
    obtain ⟨hhead, htail⟩ := List.pairwise_cons.mp hs
    unfold updAddQ
    by_cases h1 : k < k'
    · rw [if_pos h1]
      have hnone : alookup k ((k', v') :: rest) = none := by
        apply alookup_eq_none_of_forall
        intro p hp
        rcases List.mem_cons.mp hp with hp | hp
        · rw [hp]; omega
        · have := hhead p hp; omega
      rw [hnone]
      show (if k = k then some v else alookup k ((k', v') :: rest))
          = some (Option.getD none 0 + v)
      rw [if_pos rfl]
      simp
    · rw [if_neg h1]
      by_cases h2 : k = k'
      · rw [if_pos h2]
        subst h2
        show (if k = k then some (v' + v) else alookup k rest)
            = some ((if k = k then some v' else alookup k rest).getD 0 + v)
        rw [if_pos rfl, if_pos rfl]
        simp
      · rw [if_neg h2]
        show (if k = k' then some v' else alookup k (updAddQ k v rest))
            = some ((if k = k' then some v' else alookup k rest).getD 0 + v)
        rw [if_neg h2, if_neg h2]
        exact ih htail

theorem alookup_updAddQ_ne (k k' : Int) (v : ℚ) (hne : k' ≠ k) :
    ∀ m : List (Int × ℚ), alookup k' (updAddQ k v m) = alookup k' m := by
  intro m
  induction m with
  | nil => simp [updAddQ, alookup, hne]
  | cons q rest ih =>
    obtain ⟨k'', v''⟩ := q
    unfold updAddQ
    by_cases h1 : k < k''
    · rw [if_pos h1]
      show (if k' = k then some v else alookup k' ((k'', v'') :: rest))
          = alookup k' ((k'', v'') :: rest)
      rw [if_neg hne]
    · rw [if_neg h1]
      by_cases h2 : k = k''
      · rw [if_pos h2]
        subst h2
        show (if k' = k then some (v'' + v) else alookup k' rest)
            = (if k' = k then some v'' else alookup k' rest)
        rw [if_neg hne, if_neg hne]
      · rw [if_neg h2]
        show (if k' = k'' then some v'' else alookup k' (updAddQ k v rest))
            = (if k' = k'' then some v'' else alookup k' rest)
        by_cases h3 : k' = k''
        · rw [if_pos h3, if_pos h3]
        · rw [if_neg h3, if_neg h3]
          exact ih

theorem aeraseQ_sublist (k : Int) :
    ∀ m : List (Int × ℚ), (aeraseQ k m).Sublist m := by
  intro m
  induction m with
  | nil => simp [aeraseQ]
  | cons q rest ih =>
    obtain ⟨k', v'⟩ := q
    unfold aeraseQ
    by_cases h : k = k'
    · rw [if_pos h]
      exact List.sublist_cons_self _ _
    · rw [if_neg h]
      exact List.Sublist.cons₂ _ ih

theorem sortedKeys_aeraseQ (k : Int) (m : List (Int × ℚ))
    (hs : SortedKeys m) : SortedKeys (aeraseQ k m) :=
  List.Pairwise.sublist (aeraseQ_sublist k m) hs

theorem alookup_aeraseQ_self (k : Int) :
    ∀ m : List (Int × ℚ), SortedKeys m → alookup k (aeraseQ k m) = none := by
  intro m
  induction m with
  | nil => intro _; rfl
  | cons q rest ih =>
    intro hs
    obtain ⟨k', v'⟩ := q
    obtain ⟨hhead, htail⟩ := List.pairwise_cons.mp hs
    unfold aeraseQ
    by_cases h : k = k'
    · rw [if_pos h]
      subst h
      apply alookup_eq_none_of_forall
      intro p hp
      have := hhead p hp
      omega
    · rw [if_neg h]
      unfold alookup
      rw [if_neg h]
      exact ih htail

theorem alookup_aeraseQ_ne (k k' : Int) (hne : k' ≠ k) :
    ∀ m : List (Int × ℚ), alookup k' (aeraseQ k m) = alookup k' m := by
  intro m
  induction m with
  | nil => rfl
  | cons q rest ih =>
    obtain ⟨k'', v''⟩ := q
    unfold aeraseQ
    by_cases h : k = k''
    · rw [if_pos h]
      subst h
      show alookup k' rest = (if k' = k then some v'' else alookup k' rest)
      rw [if_neg hne]
    · rw [if_neg h]
      show (if k' = k'' then some v'' else alookup k' (aeraseQ k rest))
          = (if k' = k'' then some v'' else alookup k' rest)
      by_cases h3 : k' = k''
      · rw [if_pos h3, if_pos h3]
      · rw [if_neg h3, if_neg h3]
        exact ih

theorem postingContribution_nil (docs : List (Int × DocumentData))
    (pred : Int → DocumentStatus → Int → Bool) (idfv : ℚ) (id : Int) :
    postingContribution docs pred idfv [] id = 0 := rfl

theorem postingContribution_head (docs : List (Int × DocumentData))
    (pred : Int → DocumentStatus → Int → Bool) (idfv : ℚ) (pid : Int)
    (tf : ℚ) (rest : List (Int × ℚ)) :
    postingContribution docs pred idfv ((pid, tf) :: rest) pid
      = if predAt docs pred pid then tf * idfv else 0 := by
  simp [postingContribution, alookup]

theorem postingContribution_ne (docs : List (Int × DocumentData))
    (pred : Int → DocumentStatus → Int → Bool) (idfv : ℚ) (pid id : Int)
    (tf : ℚ) (rest : List (Int × ℚ)) (hid : id ≠ pid) :
    postingContribution docs pred idfv ((pid, tf) :: rest) id
      = postingContribution docs pred idfv rest id := by
  simp [postingContribution, alookup, hid]

theorem postingContribution_none (docs : List (Int × DocumentData))
    (pred : Int → DocumentStatus → Int → Bool) (idfv : ℚ) (id : Int)
    (ps : List (Int × ℚ)) (h : alookup id ps = none) :
    postingContribution docs pred idfv ps id = 0 := by
  simp [postingContribution, h]

theorem accumPostings_ok (docs : List (Int × DocumentData))
    (pred : Int → DocumentStatus → Int → Bool) (idfv : ℚ) :
    ∀ (ps m m' : List (Int × ℚ)), SortedKeys ps → SortedKeys m →
    accumPostings docs pred idfv ps m = .ok m' →
    SortedKeys m' ∧
    (∀ id : Int, rlookQ m' id
      = rlookQ m id + postingContribution docs pred idfv ps id) ∧
    (∀ id : Int, (alookup id m').isSome = true ↔
      ((alookup id m).isSome = true ∨
        (predAt docs pred id = true ∧ (alookup id ps).isSome = true))) := by
  intro ps
  induction ps with
  | nil =>
    intro m m' _ hm hok
    have hmm : m = m' := by
      have h0 : Except.ok (ε := SSError) m = Except.ok m' := hok
      exact Except.ok.inj h0
    subst hmm
    refine ⟨hm, ?_, ?_⟩
    · intro id
      rw [postingContribution_nil]
      ring
    · intro id
      simp [alookup]
  | cons p rest ih =>
    intro m m' hps hm hok
    obtain ⟨pid, tf⟩ := p
    obtain ⟨hhead, htail⟩ := List.pairwise_cons.mp hps
    rcases hdd : alookup pid docs with _ | dd
    · exfalso
      simp only [accumPostings, mapAt, hdd] at hok
      exact Except.noConfusion hok
    · simp only [accumPostings, mapAt, hdd] at hok
      have hnone : alookup pid rest = none := by
        apply alookup_eq_none_of_forall
        intro p' hp'
        have := hhead p' hp'
        omega
      have hpredAt : predAt docs pred pid = pred pid dd.status dd.rating := by
        unfold predAt
        rw [hdd]
      have hsomehead : (alookup pid ((pid, tf) :: rest)).isSome = true := by
        simp [alookup]
      by_cases hp : pred pid dd.status dd.rating = true
      · rw [if_pos hp] at hok
        obtain ⟨hs', hval, hmem⟩ := ih (updAddQ pid (tf * idfv) m) m' htail
          (sortedKeys_updAddQ _ _ _ hm) hok
        have hm1self : rlookQ (updAddQ pid (tf * idfv) m) pid
            = rlookQ m pid + tf * idfv := by
          unfold rlookQ
          rw [alookup_updAddQ_self pid (tf * idfv) m hm]
          simp [rlookQ]
        refine ⟨hs', ?_, ?_⟩
        · intro id
          by_cases hid : id = pid
          · subst hid
            rw [hval id, postingContribution_none docs pred idfv id rest hnone,
              hm1self, postingContribution_head, hpredAt, if_pos hp]
            ring
          · rw [hval id, postingContribution_ne docs pred idfv pid id tf rest hid]
            have h6 : rlookQ (updAddQ pid (tf * idfv) m) id = rlookQ m id := by
              unfold rlookQ
              rw [alookup_updAddQ_ne pid id (tf * idfv) hid m]
            rw [h6]
        · intro id
          by_cases hid : id = pid
          · subst hid
            constructor
            · intro _
              right
              exact ⟨by rw [hpredAt]; exact hp, hsomehead⟩
            · intro _
              refine (hmem id).mpr (Or.inl ?_)
              rw [alookup_updAddQ_self id (tf * idfv) m hm]
              rfl
          · have hcons : alookup id ((pid, tf) :: rest) = alookup id rest := by
              show (if id = pid then some tf else alookup id rest)
                  = alookup id rest
              rw [if_neg hid]
            have hm1 : alookup id (updAddQ pid (tf * idfv) m) = alookup id m :=
              alookup_updAddQ_ne pid id (tf * idfv) hid m
            rw [hcons]
            have h7 := hmem id
            rw [hm1] at h7
            exact h7
      · rw [if_neg hp] at hok
        obtain ⟨hs', hval, hmem⟩ := ih m m' htail hm hok
        have hpf : predAt docs pred pid = false := by
          rw [hpredAt]
          exact Bool.not_eq_true _ ▸ hp
        refine ⟨hs', ?_, ?_⟩
        · intro id
          by_cases hid : id = pid
          · subst hid
            rw [hval id, postingContribution_none docs pred idfv id rest hnone,
              postingContribution_head, hpf]
            simp
          · rw [hval id, postingContribution_ne docs pred idfv pid id tf rest hid]
        · intro id
          by_cases hid : id = pid
          · subst hid
            constructor
            · intro h1
              rcases (hmem id).mp h1 with h2 | h2
              · exact Or.inl h2
              · rw [hnone] at h2
                simp at h2
            · intro h1
              rcases h1 with h2 | h2
              · exact (hmem id).mpr (Or.inl h2)
              · rw [hpf] at h2
                simp at h2
          · have hcons : alookup id ((pid, tf) :: rest) = alookup id rest := by
              show (if id = pid then some tf else alookup id rest)
                  = alookup id rest
              rw [if_neg hid]
            rw [hcons]
            exact hmem id

theorem postingContribution_predFalse (docs : List (Int × DocumentData))
    (pred : Int → DocumentStatus → Int → Bool) (idfv : ℚ)
    (ps : List (Int × ℚ)) (id : Int) (h : predAt docs pred id = false) :
    postingContribution docs pred idfv ps id = 0 := by
  rcases h2 : alookup id ps with _ | tf
  · simp [postingContribution, h2]
  · simp [postingContribution, h2, h]

theorem contribution_eq_postingContribution (s : SearchServer) (rlog : ℚ → ℚ)
    (pred : Int → DocumentStatus → Int → Bool) (id : Int) (w : String)
    (postings : List (Int × ℚ))
    (hw : alookup w s.word_to_document_freqs = some postings)
    (hpr : predAt s.documents pred id = true) :
    contribution s rlog id w
      = postingContribution s.documents pred
          (rlog ((s.documents.length : ℚ) / (postings.length : ℚ))) postings id := by
  rcases h2 : alookup id postings with _ | tf
  · simp [contribution, postingContribution, hw, h2]
  · simp [contribution, postingContribution, hw, h2, hpr]

theorem findAllWordsLoop_ok (s : SearchServer) (rlog : ℚ → ℚ)
    (pred : Int → DocumentStatus → Int → Bool)
    (hwf : WellFormedPostings s) :
    ∀ (ws : List String) (m m' : List (Int × ℚ)), SortedKeys m →
    findAllWordsLoop s rlog pred ws m = .ok m' →
    SortedKeys m' ∧
    (∀ id : Int, rlookQ m' id = rlookQ m id +
      (if predAt s.documents pred id = true then
        ((ws.map (contribution s rlog id)).sum) else 0)) ∧
    (∀ id : Int, (alookup id m').isSome = true ↔
      ((alookup id m).isSome = true ∨
        (predAt s.documents pred id = true ∧
          ∃ w ∈ ws, hasPostingB s w id = true))) := by
  intro ws
  induction ws with
  | nil =>
    intro m m' hm hok
    have hmm : m = m' := Except.ok.inj hok
    subst hmm
    refine ⟨hm, ?_, ?_⟩
    · intro id
      simp
    · intro id
      simp
  | cons w ws ih =>
    intro m m' hm hok
    rcases hw : alookup w s.word_to_document_freqs with _ | postings
    · simp only [findAllWordsLoop, hw] at hok
      obtain ⟨hs', hval, hmem⟩ := ih m m' hm hok
      have hpb : ∀ id : Int, hasPostingB s w id = false := by
        intro id
        simp [hasPostingB, postingHasId, hw]
      refine ⟨hs', ?_, ?_⟩
      · intro id
        rw [hval id, List.map_cons, List.sum_cons]
        have hcid : contribution s rlog id w = 0 := by
          simp [contribution, hw]
        rw [hcid]
        by_cases hpr : predAt s.documents pred id = true
        · rw [if_pos hpr, if_pos hpr]
          ring
        · rw [if_neg hpr, if_neg hpr]
      · intro id
        rw [hmem id]
        constructor
        · rintro (h1 | ⟨h1, w', hw', h2⟩)
          · exact Or.inl h1
          · exact Or.inr ⟨h1, w', List.mem_cons_of_mem _ hw', h2⟩
        · rintro (h1 | ⟨h1, w', hw', h2⟩)
          · exact Or.inl h1
          · rcases List.mem_cons.mp hw' with rfl | hw''
            · rw [hpb id] at h2
              exact absurd h2 (by simp)
            · exact Or.inr ⟨h1, w', hw'', h2⟩
    · have hmemIdx : (w, postings) ∈ s.word_to_document_freqs :=
        mem_of_alookup_eq_some w postings _ hw
      have hsorted : SortedKeys postings := hwf (w, postings) hmemIdx
      have hcw : computeWordInverseDocumentFreq s rlog w
          = .ok (rlog ((s.documents.length : ℚ) / (postings.length : ℚ))) := by
        unfold computeWordInverseDocumentFreq mapAt
        rw [hw]
      simp only [findAllWordsLoop, hw, hcw] at hok
      rcases hacc : accumPostings s.documents pred
          (rlog ((s.documents.length : ℚ) / (postings.length : ℚ))) postings m
        with e | m1
      · rw [hacc] at hok
        exact absurd hok (by simp)
      · rw [hacc] at hok
        simp only [] at hok
        obtain ⟨hsacc, hvacc, hmacc⟩ := accumPostings_ok s.documents pred
          (rlog ((s.documents.length : ℚ) / (postings.length : ℚ)))
          postings m m1 hsorted hm hacc
        obtain ⟨hs', hval, hmem⟩ := ih m1 m' hsacc hok
        have hhpb : ∀ id : Int, hasPostingB s w id
            = (alookup id postings).isSome := by
          intro id
          simp [hasPostingB, postingHasId, hw]
        refine ⟨hs', ?_, ?_⟩
        · intro id
          rw [hval id, hvacc id, List.map_cons, List.sum_cons]
          by_cases hpr : predAt s.documents pred id = true
          · rw [if_pos hpr, if_pos hpr,
              contribution_eq_postingContribution s rlog pred id w postings
                hw hpr]
            ring
          · have hprf : predAt s.documents pred id = false :=
              Bool.not_eq_true _ ▸ hpr
            rw [if_neg hpr, if_neg hpr,
              postingContribution_predFalse _ _ _ _ _ hprf]
            ring
        · intro id
          rw [hmem id, hmacc id]
          constructor
          · rintro ((h1 | ⟨h1, h2⟩) | ⟨h1, w', hw', h2⟩)
            · exact Or.inl h1
            · refine Or.inr ⟨h1, w, List.mem_cons_self _ _, ?_⟩
              rw [hhpb id]
              exact h2
            · exact Or.inr ⟨h1, w', List.mem_cons_of_mem _ hw', h2⟩
          · rintro (h1 | ⟨h1, w', hw', h2⟩)
            · exact Or.inl (Or.inl h1)
            · rcases List.mem_cons.mp hw' with rfl | hw''
              · rw [hhpb id] at h2
                exact Or.inl (Or.inr ⟨h1, h2⟩)
              · exact Or.inr ⟨h1, w', hw'', h2⟩

theorem erasePostings_spec : ∀ (ps m : List (Int × ℚ)), SortedKeys m →
    SortedKeys (erasePostings ps m) ∧
    (∀ id : Int, alookup id (erasePostings ps m)
      = if (alookup id ps).isSome then none else alookup id m) := by
  intro ps
  induction ps with
  | nil =>
    intro m hm
    refine ⟨hm, ?_⟩
    intro id
    simp [erasePostings, alookup]
  | cons p rest ih =>
    intro m hm
    obtain ⟨pid, tf⟩ := p
    have hstep : erasePostings ((pid, tf) :: rest) m
        = erasePostings rest (aeraseQ pid m) := rfl
    obtain ⟨hs', hval⟩ := ih (aeraseQ pid m) (sortedKeys_aeraseQ pid m hm)
    rw [hstep]
    refine ⟨hs', ?_⟩
    intro id
    rw [hval id]
    by_cases hid : id = pid
    · subst hid
      have hr : alookup id ((id, tf) :: rest) = some tf := by
        simp [alookup]
      rw [hr]
      by_cases h2 : (alookup id rest).isSome = true
      · rw [if_pos h2]
        simp
      · rw [if_neg h2, alookup_aeraseQ_self id m hm]
        simp
    · have hcons : alookup id ((pid, tf) :: rest) = alookup id rest := by
        show (if id = pid then some tf else alookup id rest) = alookup id rest
        rw [if_neg hid]
      rw [hcons, alookup_aeraseQ_ne pid id hid m]

theorem eraseMinus_spec (s : SearchServer) :
    ∀ (ws : List String) (m : List (Int × ℚ)), SortedKeys m →
    SortedKeys (eraseMinus s ws m) ∧
    (∀ id : Int, alookup id (eraseMinus s ws m)
      = if ws.any (fun w => hasPostingB s w id) then none
        else alookup id m) := by
  intro ws
  induction ws with
  | nil =>
    intro m hm
    refine ⟨hm, ?_⟩
    intro id
    simp [eraseMinus]
  | cons w ws ih =>
    intro m hm
    rcases hw : alookup w s.word_to_document_freqs with _ | postings
    · have hstep : eraseMinus s (w :: ws) m = eraseMinus s ws m := by
        simp only [eraseMinus, hw]
      obtain ⟨hs', hval⟩ := ih m hm
      rw [hstep]
      refine ⟨hs', ?_⟩
      intro id
      rw [hval id]
      have hpb : hasPostingB s w id = false := by
        simp [hasPostingB, postingHasId, hw]
      rw [List.any_cons, hpb, Bool.false_or]
    · have hstep : eraseMinus s (w :: ws) m
          = eraseMinus s ws (erasePostings postings m) := by
        simp only [eraseMinus, hw]
      obtain ⟨hsp, hvp⟩ := erasePostings_spec postings m hm
      obtain ⟨hs', hval⟩ := ih (erasePostings postings m) hsp
      rw [hstep]
      refine ⟨hs', ?_⟩
      intro id
      rw [hval id, hvp id]
      have hpb : hasPostingB s w id = (alookup id postings).isSome := by
        simp [hasPostingB, postingHasId, hw]
      rw [List.any_cons, hpb]
      by_cases hb : ws.any (fun w => hasPostingB s w id) = true
      · rw [if_pos hb]
        have hcond : ((alookup id postings).isSome
            || ws.any (fun w => hasPostingB s w id)) = true := by
          rw [hb]
          simp
        rw [if_pos hcond]
      · rw [if_neg hb]
        by_cases ha : (alookup id postings).isSome = true
        · rw [if_pos ha]
          have hcond : ((alookup id postings).isSome
              || ws.any (fun w => hasPostingB s w id)) = true := by
            rw [ha]
            simp
          rw [if_pos hcond]
        · rw [if_neg ha]
          have hcond : ¬ ((alookup id postings).isSome
              || ws.any (fun w => hasPostingB s w id)) = true := by
            simp only [Bool.or_eq_true]
            rintro (h1 | h1)
            · exact ha h1
            · exact hb h1
          rw [if_neg hcond]

theorem buildMatched_ok_mem (docs : List (Int × DocumentData)) :
    ∀ (m : List (Int × ℚ)) (out : List Document),
    buildMatched docs m = .ok out →
    ∀ d ∈ out, (d.id, d.relevance) ∈ m ∧
      ∃ dd, alookup d.id docs = some dd ∧ d.rating = dd.rating := by
  intro m
  induction m with
  | nil =>
    intro out hok d hd
    have h0 : out = [] := (Except.ok.inj hok).symm
    subst h0
    exact absurd hd (by simp)
  | cons p rest ih =>
    intro out hok d hd
    obtain ⟨id, rel⟩ := p
    rcases hdd : alookup id docs with _ | dd
    · exfalso
      simp only [buildMatched, mapAt, hdd] at hok
      exact Except.noConfusion hok
    · simp only [buildMatched, mapAt, hdd] at hok
      rcases hrest : buildMatched docs rest with e | tail
      · rw [hrest] at hok
        exact absurd hok (by simp)
      · rw [hrest] at hok
        have hout : out = ⟨id, rel, dd.rating⟩ :: tail :=
          (Except.ok.inj hok).symm
        subst hout
        rcases List.mem_cons.mp hd with hd1 | hd2
        · subst hd1
          exact ⟨List.mem_cons_self _ _, dd, hdd, rfl⟩
        · obtain ⟨hmem, hdd2⟩ := ih tail hrest d hd2
          exact ⟨List.mem_cons_of_mem _ hmem, hdd2⟩

theorem findAllDocuments_ok_spec (s : SearchServer) (rlog : ℚ → ℚ)
    (query : Query) (pred : Int → DocumentStatus → Int → Bool)
    (res : List Document) (hwf : WellFormedPostings s)
    (hok : findAllDocuments s rlog query pred = .ok res) :
    ∀ d ∈ res,
      d.relevance = ((query.plus_words.map (contribution s rlog d.id)).sum) ∧
      (∃ w ∈ query.plus_words, hasPostingB s w d.id = true) ∧
      (∀ w ∈ query.minus_words, hasPostingB s w d.id = false) ∧
      (∃ dd, alookup d.id s.documents = some dd ∧ d.rating = dd.rating ∧
        pred d.id dd.status dd.rating = true) := by
  intro d hd
  unfold findAllDocuments at hok
  rcases hm : findAllWordsLoop s rlog pred query.plus_words [] with e | m
  · rw [hm] at hok
    exact absurd hok (by simp)
  · rw [hm] at hok
    have hok2 : buildMatched s.documents
        (eraseMinus s query.minus_words m) = .ok res := hok
    obtain ⟨hsm, hval, hmem⟩ := findAllWordsLoop_ok s rlog pred hwf
      query.plus_words [] m (by simp [SortedKeys]) hm
    obtain ⟨hsm2, herase⟩ := eraseMinus_spec s query.minus_words m hsm
    obtain ⟨hmem2, dd, hdd, hrat⟩ :=
      buildMatched_ok_mem s.documents _ res hok2 d hd
    have hlook2 : alookup d.id (eraseMinus s query.minus_words m)
        = some d.relevance :=
      alookup_of_mem_sorted d.id d.relevance _ hsm2 hmem2
    rw [herase d.id] at hlook2
    by_cases hmin : query.minus_words.any (fun w => hasPostingB s w d.id) = true
    · rw [if_pos hmin] at hlook2
      exact absurd hlook2 (by simp)
    · rw [if_neg hmin] at hlook2
      have hminAll : ∀ w ∈ query.minus_words, hasPostingB s w d.id = false := by
        intro w hw
        by_contra hcon
        have hT : hasPostingB s w d.id = true := by
          simpa using hcon
        exact hmin (List.any_eq_true.mpr ⟨w, hw, hT⟩)
      have hsome : (alookup d.id m).isSome = true := by
        rw [hlook2]
        rfl
      rcases (hmem d.id).mp hsome with h1 | h2
      · simp [alookup] at h1
      · obtain ⟨hpr, hplus⟩ := h2
        have hv := hval d.id
        rw [if_pos hpr] at hv
        have h0 : rlookQ ([] : List (Int × ℚ)) d.id = 0 := rfl
        rw [h0, zero_add] at hv
        have hrel : rlookQ m d.id = d.relevance := by
          unfold rlookQ
          rw [hlook2]
          rfl
        have hpred : pred d.id dd.status dd.rating = true := by
          simp only [predAt, hdd] at hpr
          exact hpr
        exact ⟨by rw [← hrel, hv], hplus, hminAll, dd, hdd, hrat, hpred⟩

/-! ## Claim C2 -/

/-- Claim C2: every document `FindTopDocuments` returns has relevance equal
to the sum, over the plus query terms, of its recorded term frequency times
`rlog` of (document count / number of documents containing the term) — with
terms absent from the index (or without a posting for the document)
contributing 0 — and every returned document matches at least one plus
term, matches no minus term, and satisfies the predicate on its stored
status and rating; documents failing any of these never appear. -/
theorem findTopDocuments_relevance_formula (s : SearchServer) (rlog : ℚ → ℚ)
    (raw_query : String) (pred : Int → DocumentStatus → Int → Bool)
    (query : Query) (res : List Document)
    (hwf : WellFormedPostings s)
    (hq : parseQuery s.stop_words raw_query = .ok query)
    (hfind : findTopDocuments s rlog raw_query pred = .ok res) :
    ∀ d ∈ res,
      d.relevance = ((query.plus_words.map (contribution s rlog d.id)).sum) ∧
      (∃ w ∈ query.plus_words, hasPostingB s w d.id = true) ∧
      (∀ w ∈ query.minus_words, hasPostingB s w d.id = false) ∧
      (∃ dd, alookup d.id s.documents = some dd ∧ d.rating = dd.rating ∧
        pred d.id dd.status dd.rating = true) := by
  intro d hd
  unfold findTopDocuments at hfind
  rw [hq] at hfind
  by_cases hraw : raw_query = ""
  · simp [hraw] at hfind
  · simp only [if_neg hraw] at hfind
    rcases hall : findAllDocuments s rlog query pred with e | matched
    · rw [hall] at hfind
      exact absurd hfind (by simp)
    · simp only [hall, Except.ok.injEq] at hfind
      subst hfind
      have hd2 : d ∈ List.insertionSort (fun a b => docLt b a = false) matched := by
        by_cases hlen : MAX_RESULT_DOCUMENT_COUNT <
            (List.insertionSort (fun a b => docLt b a = false) matched).length
        · rw [if_pos hlen] at hd
          exact List.take_subset _ _ hd
        · rw [if_neg hlen] at hd
          exact hd
      have hd3 : d ∈ matched :=
        (List.perm_insertionSort (fun a b => docLt b a = false)
          matched).mem_iff.mp hd2
      exact findAllDocuments_ok_spec s rlog query pred matched hwf hall d hd3

/-- Witness for C2: the single document returned for "cat" on the concrete
two-document state carries exactly the TF-IDF sum of its one matching term,
matches no minus term, and passes the predicate. -/
theorem findTopDocuments_relevance_formula_witness :
    1 / 2 * rlogOne ((2 : ℚ) / (1 : ℚ))
        = ((["cat"].map (contribution srvTwo rlogOne 0)).sum) ∧
    (∃ w ∈ ["cat"], hasPostingB srvTwo w 0 = true) ∧
    (∀ w ∈ ([] : List String), hasPostingB srvTwo w 0 = false) ∧
    (∃ dd, alookup (0 : Int) srvTwo.documents = some dd ∧ (2 : Int) = dd.rating ∧
      predTrue 0 dd.status dd.rating = true) :=
  findTopDocuments_relevance_formula srvTwo rlogOne "cat" predTrue
    ⟨["cat"], []⟩ [⟨0, 1 / 2 * rlogOne ((2 : ℚ) / (1 : ℚ)), 2⟩]
    (by unfold WellFormedPostings SortedKeys; decide) rfl rfl
    ⟨0, 1 / 2 * rlogOne ((2 : ℚ) / (1 : ℚ)), 2⟩ (List.mem_singleton.mpr rfl)
